import Mathlib

/-
Verification development for the Atlas single-symbol limit order book engine.

The definitions below are a shallow embedding of the C++ sources:
  * core value types and constants (types.hpp),
  * Order (order.hpp),
  * PriceLevel (price_level.hpp),
  * OrderBook (order_book.hpp / order_book.cpp),
  * MatchingEngine (matching_engine.hpp / matching_engine.cpp),
  * SPSCRingBuffer (ring_buffer.hpp), modelled for single-threaded use.

Machine integers are modelled as Nat (uint64_t: OrderId, Quantity,
Timestamp) and Int (int64_t: Price).  No arithmetic in the verified
operations reaches the 64-bit range on the inputs considered, except the
INVALID_PRICE sentinel which is modelled exactly as 2^63 - 1.  C++
unsigned subtractions that the code keeps non-negative by invariant are
modelled with truncated Nat subtraction.
-/

namespace Atlas

/-- Order side, from types.hpp (enum class Side). -/
inductive Side where
  | Buy
  | Sell
deriving DecidableEq, Repr

/-- Order type, from types.hpp (enum class OrderType). -/
inductive OrderType where
  | Limit
  | Market
  | IOC
  | FOK
deriving DecidableEq, Repr

/-- Order status, from types.hpp (enum class OrderStatus). -/
inductive OrderStatus where
  | New
  | PartiallyFilled
  | Filled
  | Cancelled
  | Rejected
deriving DecidableEq, Repr

/-- PRICE_MULTIPLIER = 10000 (4 implied decimals), from types.hpp. -/
def PRICE_MULTIPLIER : Int := 10000

/-- Largest int64_t value; used both as the INVALID_PRICE sentinel and as
the substituted limit of an aggressive market buy. -/
def I64_MAX : Int := 2 ^ 63 - 1

/-- Smallest int64_t value; substituted limit of an aggressive market sell. -/
def I64_MIN : Int := -(2 ^ 63)

/-- INVALID_PRICE = std::numeric_limits of int64_t max, from types.hpp. -/
def INVALID_PRICE : Int := I64_MAX

/-- INVALID_ORDER_ID = 0, from types.hpp. -/
def INVALID_ORDER_ID : Nat := 0

/-- to_price for integral user prices: to_price(x) = x * 10000.  The C++
takes a double and rounds to nearest; on integer inputs this is exact. -/
def to_price (x : Int) : Int := x * PRICE_MULTIPLIER

/-- Order record, from order.hpp.  The intrusive prev/next/level link
fields are represented implicitly by the position of the order inside its
PriceLevel FIFO list. -/
structure Order where
  id : Nat
  price : Int
  quantity : Nat
  filled_quantity : Nat
  timestamp : Nat
  side : Side
  type : OrderType
  status : OrderStatus
deriving DecidableEq, Repr

namespace Order

/-- Order::remaining() = quantity - filled_quantity. -/
def remaining (o : Order) : Nat := o.quantity - o.filled_quantity

/-- Order::is_active(): status is New or PartiallyFilled. -/
def is_active (o : Order) : Bool :=
  o.status = OrderStatus.New || o.status = OrderStatus.PartiallyFilled

/-- Order::fill(q): apply min(q, remaining) to filled_quantity and update
the status accordingly. -/
def fill (o : Order) (fill_qty : Nat) : Order :=
  let actual := min fill_qty o.remaining
  let f := o.filled_quantity + actual
  { o with
    filled_quantity := f
    status :=
      if o.quantity ≤ f then OrderStatus.Filled
      else if 0 < f then OrderStatus.PartiallyFilled
      else o.status }

end Order

/-- Constructor Order(id, price, qty, side, type, ts) from order.hpp:
filled_quantity 0, status New. -/
def mkOrder (id : Nat) (price : Int) (quantity : Nat) (side : Side)
    (type : OrderType) (timestamp : Nat) : Order :=
  ⟨id, price, quantity, 0, timestamp, side, type, OrderStatus.New⟩

/-- PriceLevel, from price_level.hpp: a FIFO of orders at one price with
cached aggregate total_quantity and order_count. -/
structure PriceLevel where
  price : Int
  orders : List Order
  total_quantity : Nat
  order_count : Nat
deriving DecidableEq, Repr

namespace PriceLevel

/-- PriceLevel(price) constructor: empty FIFO, zero aggregates. -/
def mk' (price : Int) : PriceLevel := ⟨price, [], 0, 0⟩

/-- PriceLevel::add_order: append at the tail of the FIFO, add the order's
remaining quantity to total_quantity, bump order_count.  The C++
total_quantity_ is a uint64_t, so the source's accumulation wraps modulo
2^64; this field carries the untruncated sum, and the engine-level
no-crossing theorem imposes an explicit total-volume budget under which
every level total stays below 2^64 — certified by its second conclusion —
so that on its whole domain the untruncated sum coincides with the
program's uint64 value. -/
def add_order (l : PriceLevel) (o : Order) : PriceLevel :=
  { l with
    orders := l.orders ++ [o]
    total_quantity := l.total_quantity + o.remaining
    order_count := l.order_count + 1 }

/-- PriceLevel::remove_order: splice the given order out of the FIFO
(first value-equal occurrence; in C++ the exact node is spliced via its
intrusive links), subtract its remaining quantity, decrement order_count. -/
def remove_order (l : PriceLevel) (o : Order) : PriceLevel :=
  { l with
    orders := l.orders.erase o
    total_quantity := l.total_quantity - o.remaining
    order_count := l.order_count - 1 }

/-- PriceLevel::empty(): head_ == nullptr, i.e. the FIFO list is empty. -/
def isEmptyLevel (l : PriceLevel) : Bool := l.orders.isEmpty

end PriceLevel

/-- Depth entry (price, total quantity, order count), from order_book.hpp
(struct DepthLevel). -/
structure DepthLevel where
  price : Int
  quantity : Nat
  order_count : Nat
deriving DecidableEq, Repr

/-- OrderBook, from order_book.hpp.  The two std::map sides are modelled
as lists of price levels sorted best-first (bids descending by price, asks
ascending); the level's price field plays the role of the map key.  The
unordered_map order index is an association list.  The pool allocator is
modelled by its observable in-use count with capacity 100000
(DEFAULT_ORDER_POOL_SIZE): allocation fails when the pool is exhausted. -/
structure OrderBook where
  bids : List PriceLevel
  asks : List PriceLevel
  order_index : List (Nat × Order)
  total_bid_volume : Nat
  total_ask_volume : Nat
  pool_in_use : Nat
deriving DecidableEq, Repr

/-- Pool capacity: PoolAllocator of Order, 100000 slots (order_book.cpp). -/
def POOL_CAPACITY : Nat := 100000

namespace OrderBook

/-- Empty order book (fresh OrderBook()). -/
def empty : OrderBook := ⟨[], [], [], 0, 0, 0⟩

/-- Insert an order into a best-first sorted side, creating the level if
absent (get_or_create_*_level followed by PriceLevel::add_order).  The
argument better is the side's priority order on prices: (a > b) for bids,
(a < b) for asks; an equal price merges into the existing level. -/
def addToLevels (better : Int → Int → Bool) (p : Int) (o : Order) :
    List PriceLevel → List PriceLevel
  | [] => [(PriceLevel.mk' p).add_order o]
  | l :: ls =>
    if better p l.price then (PriceLevel.mk' p).add_order o :: l :: ls
    else if p = l.price then l.add_order o :: ls
    else l :: addToLevels better p o ls

/-- Apply PriceLevel::remove_order to the level keyed by the given price
(the C++ reaches the level through the order's back-pointer). -/
def removeFromLevels (p : Int) (o : Order) :
    List PriceLevel → List PriceLevel
  | [] => []
  | l :: ls =>
    if l.price = p then l.remove_order o :: ls
    else l :: removeFromLevels p o ls

/-- remove_*_level_if_empty: erase the level keyed by the given price if
its FIFO is now empty. -/
def removeLevelIfEmpty (p : Int) : List PriceLevel → List PriceLevel
  | [] => []
  | l :: ls =>
    if l.price = p then (if l.isEmptyLevel then ls else l :: ls)
    else l :: removeLevelIfEmpty p ls

/-- OrderBook::add_order (order_book.cpp): rejects a duplicate id, rejects
on pool exhaustion, otherwise constructs a fresh order, appends it to the
side's level (creating it if absent), adds its quantity to the side
volume, and records it in the id index. -/
def add_order (b : OrderBook) (id : Nat) (price : Int) (quantity : Nat)
    (side : Side) (type : OrderType) (timestamp : Nat) :
    Option Order × OrderBook :=
  if (b.order_index.lookup id).isSome then (none, b)
  else if POOL_CAPACITY ≤ b.pool_in_use then (none, b)
  else
    let o := mkOrder id price quantity side type timestamp
    let b' :=
      match side with
      | Side.Buy =>
        { b with
          bids := addToLevels (fun a c => decide (c < a)) price o b.bids
          total_bid_volume := b.total_bid_volume + quantity }
      | Side.Sell =>
        { b with
          asks := addToLevels (fun a c => decide (a < c)) price o b.asks
          total_ask_volume := b.total_ask_volume + quantity }
    (some o,
      { b' with
        order_index := (id, o) :: b'.order_index
        pool_in_use := b'.pool_in_use + 1 })

/-- OrderBook::cancel_order (order_book.cpp): index lookup, activity
check, splice from the level, decrement the side volume by the order's
remaining quantity, drop the level if empty, erase the index entry and
release the pool slot. -/
def cancel_order (b : OrderBook) (id : Nat) : Bool × OrderBook :=
  match b.order_index.lookup id with
  | none => (false, b)
  | some o =>
    if ¬ o.is_active then (false, b)
    else
      let b' :=
        match o.side with
        | Side.Buy =>
          { b with
            bids := removeLevelIfEmpty o.price
              (removeFromLevels o.price o b.bids)
            total_bid_volume := b.total_bid_volume - o.remaining }
        | Side.Sell =>
          { b with
            asks := removeLevelIfEmpty o.price
              (removeFromLevels o.price o b.asks)
            total_ask_volume := b.total_ask_volume - o.remaining }
      (true,
        { b' with
          order_index := b'.order_index.eraseP (fun e => e.1 == id)
          pool_in_use := b'.pool_in_use - 1 })

/-- OrderBook::best_bid(): highest resting bid price or INVALID_PRICE. -/
def best_bid (b : OrderBook) : Int :=
  match b.bids with
  | [] => INVALID_PRICE
  | l :: _ => l.price

/-- OrderBook::best_ask(): lowest resting ask price or INVALID_PRICE. -/
def best_ask (b : OrderBook) : Int :=
  match b.asks with
  | [] => INVALID_PRICE
  | l :: _ => l.price

/-- OrderBook::best_bid_quantity(). -/
def best_bid_quantity (b : OrderBook) : Nat :=
  match b.bids with
  | [] => 0
  | l :: _ => l.total_quantity

/-- OrderBook::best_ask_quantity(). -/
def best_ask_quantity (b : OrderBook) : Nat :=
  match b.asks with
  | [] => 0
  | l :: _ => l.total_quantity

/-- OrderBook::get_bid_depth: best-first walk of at most max_levels bid
levels, each as (price, total quantity, order count). -/
def get_bid_depth (b : OrderBook) (max_levels : Nat) : List DepthLevel :=
  (b.bids.take max_levels).map (fun l => ⟨l.price, l.total_quantity, l.order_count⟩)

/-- OrderBook::get_ask_depth: best-first walk of at most max_levels ask
levels. -/
def get_ask_depth (b : OrderBook) (max_levels : Nat) : List DepthLevel :=
  (b.asks.take max_levels).map (fun l => ⟨l.price, l.total_quantity, l.order_count⟩)

/-- OrderBook::total_order_count(): size of the id index. -/
def total_order_count (b : OrderBook) : Nat := b.order_index.length

/-- VWAP walk over one side's levels (order_book.cpp loop body):
accumulate price * min(level quantity, remaining) and the filled quantity,
stopping when remaining hits zero. -/
def vwapWalk : List PriceLevel → Nat → Int × Nat
  | [], _ => (0, 0)
  | l :: ls, remaining =>
    let fill := min l.total_quantity remaining
    if remaining - fill = 0 then (l.price * (fill : Int), fill)
    else
      let (ws, tf) := vwapWalk ls (remaining - fill)
      (l.price * (fill : Int) + ws, fill + tf)

/-- OrderBook::calculate_vwap (order_book.cpp): for side Buy it walks the
bid levels (descending), for side Sell the ask levels (ascending), returns
weighted_sum / total_filled with truncating int64 division, or none when
the walked side is empty or nothing fills. -/
def calculate_vwap (b : OrderBook) (side : Side) (target_qty : Nat) :
    Option Int :=
  let levels := match side with
    | Side.Buy => b.bids
    | Side.Sell => b.asks
  if levels.isEmpty then none
  else
    let (ws, tf) := vwapWalk levels target_qty
    if tf = 0 then none else some (Int.tdiv ws (tf : Int))

end OrderBook

/-- Trade record, from order.hpp (struct Trade). -/
structure Trade where
  trade_id : Nat
  buyer_order_id : Nat
  seller_order_id : Nat
  price : Int
  quantity : Nat
  timestamp : Nat
  aggressor_side : Side
deriving DecidableEq, Repr

/-- ExecutionResult, from order.hpp. -/
structure ExecutionResult where
  order_id : Nat
  status : OrderStatus
  filled_quantity : Nat
  avg_fill_price : Int
  trade_count : Nat
deriving DecidableEq, Repr

/-- MatchingEngineConfig, from matching_engine.hpp, with its default
member values. -/
structure MatchingEngineConfig where
  self_trade_prevention : Bool := true
  allow_market_orders : Bool := true
  allow_ioc_orders : Bool := true
  allow_fok_orders : Bool := true
  max_order_quantity : Nat := 1000000
deriving DecidableEq, Repr

/-- MatchingEngine state, from matching_engine.hpp: the owned book, the
configuration, the trade queue, statistics counters and the trade-id
counter. -/
structure MatchingEngine where
  book : OrderBook
  config : MatchingEngineConfig
  trade_queue : List Trade
  total_trades : Nat
  total_volume : Nat
  total_orders_submitted : Nat
  total_orders_cancelled : Nat
  next_trade_id : Nat
deriving DecidableEq, Repr

namespace MatchingEngine

/-- Freshly constructed engine with the given configuration. -/
def init (cfg : MatchingEngineConfig) : MatchingEngine :=
  ⟨OrderBook.empty, cfg, [], 0, 0, 0, 0, 1⟩

/-- MatchingEngine::validate_order (matching_engine.cpp): rejects id 0,
zero quantity, excessive quantity, non-positive limit price, and IOC/FOK
when disallowed by configuration. -/
def validate_order (cfg : MatchingEngineConfig) (id : Nat) (price : Int)
    (quantity : Nat) (type : OrderType) : Bool :=
  if id = INVALID_ORDER_ID then false
  else if quantity = 0 then false
  else if cfg.max_order_quantity < quantity then false
  else if type = OrderType.Limit ∧ price ≤ 0 then false
  else if type = OrderType.IOC ∧ ¬ cfg.allow_ioc_orders then false
  else if type = OrderType.FOK ∧ ¬ cfg.allow_fok_orders then false
  else true

/-- Matching loop of MatchingEngine::submit_order for an aggressive buy
(matching_engine.cpp).  The book is only read, never written, inside the
loop: best_ask, best_ask_quantity and calculate_vwap are reconsulted each
iteration against the same book.  Returns the emitted trades (in order,
consuming trade ids tid, tid+1, ...) and the remaining quantity.  The
loop ends when the remaining quantity hits zero, there is no acceptable
ask, the vwap probe comes back empty, or the best level has zero quantity
(in which case no trade fires and the loop breaks). -/
def buyLoopAux (bk : OrderBook) (limit : Int) (aggid ts : Nat) :
    Nat → Nat → Nat → List Trade × Nat
  | 0, _, remaining => ([], remaining)
  | fuel + 1, tid, remaining =>
    if remaining = 0 then ([], 0)
    else
      let a := bk.best_ask
      if a = INVALID_PRICE ∨ limit < a then ([], remaining)
      else if (bk.calculate_vwap Side.Sell remaining).isNone then ([], remaining)
      else
        let avail := bk.best_ask_quantity
        let fill := min remaining avail
        if fill = 0 then ([], remaining)
        else
          let tr : Trade := ⟨tid, aggid, 0, a, fill, ts, Side.Buy⟩
          let (rest, rem') := buyLoopAux bk limit aggid ts fuel (tid + 1) (remaining - fill)
          (tr :: rest, rem')

/-- Entry point of the buy matching loop: the fuel argument of the
structural recursion is the initial remaining quantity, which always
suffices because every iteration that recurses fills at least one unit
(fill = min(remaining, avail) is non-zero there), so the fuel stays at
least the remaining quantity and the fuel-exhausted case can only be
reached with remaining = 0, where it agrees with the loop exit. -/
def buyLoop (bk : OrderBook) (limit : Int) (aggid ts : Nat)
    (tid remaining : Nat) : List Trade × Nat :=
  buyLoopAux bk limit aggid ts remaining tid remaining

/-- Matching loop of MatchingEngine::submit_order for an aggressive sell:
symmetric to buyLoop against the bid side, without the vwap probe. -/
def sellLoopAux (bk : OrderBook) (limit : Int) (aggid ts : Nat) :
    Nat → Nat → Nat → List Trade × Nat
  | 0, _, remaining => ([], remaining)
  | fuel + 1, tid, remaining =>
    if remaining = 0 then ([], 0)
    else
      let bb := bk.best_bid
      if bb = INVALID_PRICE ∨ bb < limit then ([], remaining)
      else
        let avail := bk.best_bid_quantity
        let fill := min remaining avail
        if fill = 0 then ([], remaining)
        else
          let tr : Trade := ⟨tid, 0, aggid, bb, fill, ts, Side.Sell⟩
          let (rest, rem') := sellLoopAux bk limit aggid ts fuel (tid + 1) (remaining - fill)
          (tr :: rest, rem')

/-- Entry point of the sell matching loop; the fuel argument is the
initial remaining quantity, sufficient for the same reason as in
buyLoop. -/
def sellLoop (bk : OrderBook) (limit : Int) (aggid ts : Nat)
    (tid remaining : Nat) : List Trade × Nat :=
  sellLoopAux bk limit aggid ts remaining tid remaining

/-- Sum of price * quantity over a trade list, in emission order
(accumulation of total_cost in the matching loops). -/
def tradeCost (ts : List Trade) : Int :=
  ts.foldl (fun a t => a + t.price * (t.quantity : Int)) 0

/-- Sum of quantities over a trade list (accumulation of total_volume). -/
def tradeQty (ts : List Trade) : Nat :=
  ts.foldl (fun a t => a + t.quantity) 0

/-- Outcome of a submit_order call: the synchronous ExecutionResult, the
post-call engine state, and the trades emitted during the call (the same
list, in the same order, that the call appends to the trade queue and
delivers to the trade callback). -/
structure SubmitOutcome where
  result : ExecutionResult
  engine : MatchingEngine
  emitted : List Trade
deriving Repr

/-- MatchingEngine::submit_order (matching_engine.cpp).  Faithful to the
source: the submitted counter is bumped first; validation and the
market-order configuration gate reject without touching the book; a
market order's limit is substituted by the extreme int64 value; the FOK
pre-check block in the source is an acknowledged placeholder that does
nothing and is therefore absent here; the matching loop reads the book
without mutating it; afterwards the residual of a Limit order (and only
of a Limit order) is added to the book. -/
def submit_order (eng : MatchingEngine) (id : Nat) (price : Int)
    (quantity : Nat) (side : Side) (type : OrderType) (timestamp : Nat) :
    SubmitOutcome :=
  let eng1 := { eng with total_orders_submitted := eng.total_orders_submitted + 1 }
  let rejected : ExecutionResult := ⟨id, OrderStatus.Rejected, 0, 0, 0⟩
  if ¬ validate_order eng1.config id price quantity type then
    ⟨rejected, eng1, []⟩
  else if type = OrderType.Market ∧ ¬ eng1.config.allow_market_orders then
    ⟨rejected, eng1, []⟩
  else if type = OrderType.FOK ∧ ¬ eng1.config.allow_fok_orders then
    ⟨rejected, eng1, []⟩
  else
    let limit : Int :=
      if type = OrderType.Market then
        match side with
        | Side.Buy => I64_MAX
        | Side.Sell => I64_MIN
      else price
    let (trades, rem) :=
      match side with
      | Side.Buy => buyLoop eng1.book limit id timestamp eng1.next_trade_id quantity
      | Side.Sell => sellLoop eng1.book limit id timestamp eng1.next_trade_id quantity
    let filled := quantity - rem
    let avg : Int :=
      if 0 < filled then Int.tdiv (tradeCost trades) (filled : Int) else 0
    let eng2 := { eng1 with
      trade_queue := eng1.trade_queue ++ trades
      total_trades := eng1.total_trades + trades.length
      total_volume := eng1.total_volume + tradeQty trades
      next_trade_id := eng1.next_trade_id + trades.length }
    if 0 < rem then
      if type = OrderType.Market ∨ type = OrderType.IOC then
        ⟨⟨id, if 0 < filled then OrderStatus.PartiallyFilled else OrderStatus.Cancelled,
           filled, avg, trades.length⟩, eng2, trades⟩
      else if type = OrderType.FOK then
        if filled < quantity then
          ⟨⟨id, OrderStatus.Cancelled, 0, avg, trades.length⟩, eng2, trades⟩
        else
          ⟨⟨id, OrderStatus.Rejected, filled, avg, trades.length⟩, eng2, trades⟩
      else
        let (added, book') :=
          eng2.book.add_order id limit rem side type timestamp
        match added with
        | some _ =>
          ⟨⟨id, if 0 < filled then OrderStatus.PartiallyFilled else OrderStatus.New,
             filled, avg, trades.length⟩, { eng2 with book := book' }, trades⟩
        | none =>
          ⟨⟨id, OrderStatus.Rejected, filled, avg, trades.length⟩,
            { eng2 with book := book' }, trades⟩
    else
      ⟨⟨id, OrderStatus.Filled, filled, avg, trades.length⟩, eng2, trades⟩

end MatchingEngine

/-- Engine with the default configuration, used by the concrete scenarios. -/
def defaultEngine : MatchingEngine := MatchingEngine.init {}

/-- Scenario S1 step 1: submit {id=1, Sell, px=to_price 100, qty=100, Limit}. -/
def s1SellOutcome : MatchingEngine.SubmitOutcome :=
  MatchingEngine.submit_order defaultEngine 1 (to_price 100) 100
    Side.Sell OrderType.Limit 0

/-- Scenario S1 step 2: submit {id=2, Buy, px=to_price 100, qty=60, Limit}. -/
def s1BuyOutcome : MatchingEngine.SubmitOutcome :=
  MatchingEngine.submit_order s1SellOutcome.engine 2 (to_price 100) 60
    Side.Buy OrderType.Limit 0

/-- Scenario S5 book construction: Sell 100 x 40 (id 1) then Sell 101 x 30
(id 2). -/
def s5Book : MatchingEngine :=
  (MatchingEngine.submit_order
    (MatchingEngine.submit_order defaultEngine 1 (to_price 100) 40
      Side.Sell OrderType.Limit 0).engine
    2 (to_price 101) 30 Side.Sell OrderType.Limit 0).engine

/-- Scenario S5 aggressor: Buy FOK px=to_price 100 qty=60 (id 3). -/
def s5FokOutcome : MatchingEngine.SubmitOutcome :=
  MatchingEngine.submit_order s5Book 3 (to_price 100) 60
    Side.Buy OrderType.FOK 0

/-- C1: at the S1 input (Sell id=1 px=100 qty=100 Limit, then Buy id=2
px=100 qty=60 Limit from empty) the code emits exactly one trade, but with
seller_order_id 0 rather than 1, and it never debits the resting order:
order 1 still has remaining 100 and the ask side still shows total
quantity 100 instead of 40.  The buy result itself is Filled with
filled_quantity 60 and there is no bid side.  This contradicts the
claimed (and spec-mandated) seller id and post-trade book. -/
theorem claim_C1_placeholder_sweep :
    s1BuyOutcome.emitted = [⟨1, 2, 0, to_price 100, 60, 0, Side.Buy⟩] ∧
    s1BuyOutcome.result.status = OrderStatus.Filled ∧
    s1BuyOutcome.result.filled_quantity = 60 ∧
    s1BuyOutcome.engine.book.best_ask = to_price 100 ∧
    s1BuyOutcome.engine.book.best_ask_quantity = 100 ∧
    (s1BuyOutcome.engine.book.order_index.lookup 1).map Order.remaining
      = some 100 ∧
    s1BuyOutcome.engine.book.bids = [] := by
  decide

/-- C2: at the S5 input (asks 100 x 40 and 101 x 30, Buy FOK px=100
qty=60) the code does not run the specified FOK dry-run: it double-fills
against the best ask level, emits two trades, and returns Filled with
filled_quantity 60 — not Cancelled with 0 and no trades.  Only the claim's
last conjunct (book unchanged) happens to hold, because the placeholder
sweep never mutates the book. -/
theorem claim_C2_fok_not_two_phase :
    s5FokOutcome.result.status = OrderStatus.Filled ∧
    s5FokOutcome.result.filled_quantity = 60 ∧
    s5FokOutcome.result.trade_count = 2 ∧
    s5FokOutcome.emitted =
      [⟨1, 3, 0, to_price 100, 40, 0, Side.Buy⟩,
       ⟨2, 3, 0, to_price 100, 20, 0, Side.Buy⟩] ∧
    s5FokOutcome.engine.book = s5Book.book := by
  decide

set_option maxHeartbeats 2000000 in
/-- C10: submit_order increments total_orders_submitted on every call,
whatever the validation outcome, order type, or matching result: the
counter counts attempts. -/
theorem claim_C10_submitted_counts_attempts
    (eng : MatchingEngine) (id : Nat) (price : Int) (quantity : Nat)
    (side : Side) (type : OrderType) (timestamp : Nat) :
    (MatchingEngine.submit_order eng id price quantity side type
        timestamp).engine.total_orders_submitted
      = eng.total_orders_submitted + 1 := by
  unfold MatchingEngine.submit_order
  (repeat' split) <;> simp_all <;> (repeat' split) <;> simp_all

/-- Helper fact about validate_order: a submission that passes validation
has a non-zero id, non-zero and non-excessive quantity, a positive price
when a Limit, and a type allowed by the configuration as far as the
validator checks types (IOC and FOK). -/
theorem validate_true_elim
    (cfg : MatchingEngineConfig) (id : Nat) (price : Int) (quantity : Nat)
    (type : OrderType)
    (hv : MatchingEngine.validate_order cfg id price quantity type = true) :
    id ≠ INVALID_ORDER_ID ∧ quantity ≠ 0 ∧ ¬ cfg.max_order_quantity < quantity ∧
    ¬ (type = OrderType.Limit ∧ price ≤ 0) ∧
    ¬ (type = OrderType.IOC ∧ ¬ cfg.allow_ioc_orders) ∧
    ¬ (type = OrderType.FOK ∧ ¬ cfg.allow_fok_orders) := by
  unfold MatchingEngine.validate_order at hv
  repeat' split at hv
  all_goals simp_all

/-- C5: any submission with id 0, zero quantity, excessive quantity, a
non-positive Limit price, or a type disallowed by the configuration is
Rejected with zero filled quantity and zero trade count, emits no trade,
and leaves the book untouched. -/
theorem claim_C5_validation_rejects
    (eng : MatchingEngine) (id : Nat) (price : Int) (quantity : Nat)
    (side : Side) (type : OrderType) (timestamp : Nat)
    (h : id = INVALID_ORDER_ID ∨ quantity = 0 ∨
        eng.config.max_order_quantity < quantity ∨
        (type = OrderType.Limit ∧ price ≤ 0) ∨
        (type = OrderType.Market ∧ ¬ eng.config.allow_market_orders) ∨
        (type = OrderType.IOC ∧ ¬ eng.config.allow_ioc_orders) ∨
        (type = OrderType.FOK ∧ ¬ eng.config.allow_fok_orders)) :
    (MatchingEngine.submit_order eng id price quantity side type
        timestamp).result.status = OrderStatus.Rejected ∧
    (MatchingEngine.submit_order eng id price quantity side type
        timestamp).result.filled_quantity = 0 ∧
    (MatchingEngine.submit_order eng id price quantity side type
        timestamp).result.trade_count = 0 ∧
    (MatchingEngine.submit_order eng id price quantity side type
        timestamp).emitted = [] ∧
    (MatchingEngine.submit_order eng id price quantity side type
        timestamp).engine.book = eng.book := by
  by_cases hv : MatchingEngine.validate_order eng.config id price quantity type = true
  · have hc := validate_true_elim eng.config id price quantity type hv
    have hm : type = OrderType.Market ∧ ¬ eng.config.allow_market_orders := by
      tauto
    simp [MatchingEngine.submit_order, hv, hm.1, hm.2]
  · simp [MatchingEngine.submit_order, hv]

/-- Witness for C5 at a concrete input: submitting id 0 to the default
engine is Rejected without trades or book changes. -/
theorem claim_C5_validation_rejects_witness :
    (0 = INVALID_ORDER_ID ∨ (10 : Nat) = 0 ∨
        defaultEngine.config.max_order_quantity < 10 ∨
        (OrderType.Limit = OrderType.Limit ∧ (1000000 : Int) ≤ 0) ∨
        (OrderType.Limit = OrderType.Market ∧ ¬ defaultEngine.config.allow_market_orders) ∨
        (OrderType.Limit = OrderType.IOC ∧ ¬ defaultEngine.config.allow_ioc_orders) ∨
        (OrderType.Limit = OrderType.FOK ∧ ¬ defaultEngine.config.allow_fok_orders)) ∧
    ((MatchingEngine.submit_order defaultEngine 0 1000000 10 Side.Buy
        OrderType.Limit 0).result.status = OrderStatus.Rejected ∧
     (MatchingEngine.submit_order defaultEngine 0 1000000 10 Side.Buy
        OrderType.Limit 0).result.filled_quantity = 0 ∧
     (MatchingEngine.submit_order defaultEngine 0 1000000 10 Side.Buy
        OrderType.Limit 0).result.trade_count = 0 ∧
     (MatchingEngine.submit_order defaultEngine 0 1000000 10 Side.Buy
        OrderType.Limit 0).emitted = [] ∧
     (MatchingEngine.submit_order defaultEngine 0 1000000 10 Side.Buy
        OrderType.Limit 0).engine.book = defaultEngine.book) :=
  ⟨Or.inl rfl,
   claim_C5_validation_rejects defaultEngine 0 1000000 10 Side.Buy
     OrderType.Limit 0 (Or.inl rfl)⟩

theorem buyLoopAux_price (bk : OrderBook) (limit : Int) (aggid ts : Nat) :
    ∀ (fuel tid remaining : Nat) (t : Trade),
      t ∈ (MatchingEngine.buyLoopAux bk limit aggid ts fuel tid remaining).1 →
      t.price = bk.best_ask ∧ bk.asks ≠ [] := by
  intro fuel
  induction fuel with
  | zero => intro tid remaining t ht; simp [MatchingEngine.buyLoopAux] at ht
  | succ n ih =>
    intro tid remaining t ht
    unfold MatchingEngine.buyLoopAux at ht
    dsimp only at ht
    split at ht
    · simp at ht
    · split at ht
      · simp at ht
      · split at ht
        · simp at ht
        · split at ht
          · simp at ht
          · rename_i hnz hask hvw hfill
            rcases List.mem_cons.mp (by
              have := ht
              simpa using this) with hhead | htail
            · constructor
              · rw [hhead]
              · intro hempty
                apply hask
                left
                simp [OrderBook.best_ask, hempty, INVALID_PRICE]
            · exact ih _ _ t htail

theorem sellLoopAux_price (bk : OrderBook) (limit : Int) (aggid ts : Nat) :
    ∀ (fuel tid remaining : Nat) (t : Trade),
      t ∈ (MatchingEngine.sellLoopAux bk limit aggid ts fuel tid remaining).1 →
      t.price = bk.best_bid ∧ bk.bids ≠ [] := by
  intro fuel
  induction fuel with
  | zero => intro tid remaining t ht; simp [MatchingEngine.sellLoopAux] at ht
  | succ n ih =>
    intro tid remaining t ht
    unfold MatchingEngine.sellLoopAux at ht
    dsimp only at ht
    split at ht
    · simp at ht
    · split at ht
      · simp at ht
      · split at ht
        · simp at ht
        · rename_i hnz hbid hfill
          rcases List.mem_cons.mp (by
            have := ht
            simpa using this) with hhead | htail
          · constructor
            · rw [hhead]
            · intro hempty
              apply hbid
              left
              simp [OrderBook.best_bid, hempty, INVALID_PRICE]
          · exact ih _ _ t htail

theorem buyLoop_price (bk : OrderBook) (limit : Int) (aggid ts tid remaining : Nat)
    (t : Trade)
    (ht : t ∈ (MatchingEngine.buyLoop bk limit aggid ts tid remaining).1) :
    t.price = bk.best_ask ∧ bk.asks ≠ [] :=
  buyLoopAux_price bk limit aggid ts remaining tid remaining t ht

theorem sellLoop_price (bk : OrderBook) (limit : Int) (aggid ts tid remaining : Nat)
    (t : Trade)
    (ht : t ∈ (MatchingEngine.sellLoop bk limit aggid ts tid remaining).1) :
    t.price = bk.best_bid ∧ bk.bids ≠ [] :=
  sellLoopAux_price bk limit aggid ts remaining tid remaining t ht

set_option maxHeartbeats 2000000 in
theorem submit_emitted_buy_price
    (eng : MatchingEngine) (id : Nat) (price : Int) (quantity : Nat)
    (type : OrderType) (timestamp : Nat) (t : Trade)
    (ht : t ∈ (MatchingEngine.submit_order eng id price quantity Side.Buy type
        timestamp).emitted) :
    t.price = eng.book.best_ask ∧ eng.book.asks ≠ [] := by
  unfold MatchingEngine.submit_order at ht
  dsimp only at ht
  repeat' split at ht
  all_goals try simp at ht
  all_goals exact buyLoop_price eng.book _ id timestamp _ _ t ht

set_option maxHeartbeats 2000000 in
theorem submit_emitted_sell_price
    (eng : MatchingEngine) (id : Nat) (price : Int) (quantity : Nat)
    (type : OrderType) (timestamp : Nat) (t : Trade)
    (ht : t ∈ (MatchingEngine.submit_order eng id price quantity Side.Sell type
        timestamp).emitted) :
    t.price = eng.book.best_bid ∧ eng.book.bids ≠ [] := by
  unfold MatchingEngine.submit_order at ht
  dsimp only at ht
  repeat' split at ht
  all_goals try simp at ht
  all_goals exact sellLoop_price eng.book _ id timestamp _ _ t ht

def s2SellOutcome : MatchingEngine.SubmitOutcome :=
  MatchingEngine.submit_order defaultEngine 1 (to_price 101) 50
    Side.Sell OrderType.Limit 0

def s2BuyOutcome : MatchingEngine.SubmitOutcome :=
  MatchingEngine.submit_order s2SellOutcome.engine 2 (to_price 105) 50
    Side.Buy OrderType.Limit 0

theorem claim_C3_price_improvement :
    (∀ (eng : MatchingEngine) (id : Nat) (price : Int) (quantity : Nat)
       (side : Side) (type : OrderType) (timestamp : Nat) (t : Trade),
       t ∈ (MatchingEngine.submit_order eng id price quantity side type
           timestamp).emitted →
       ∃ l : PriceLevel,
         (match side with
          | Side.Buy => eng.book.asks
          | Side.Sell => eng.book.bids).head? = some l ∧ t.price = l.price) ∧
    s2BuyOutcome.emitted = [⟨1, 2, 0, to_price 101, 50, 0, Side.Buy⟩] ∧
    s2BuyOutcome.result.avg_fill_price = to_price 101 := by
  refine ⟨?_, by decide, by decide⟩
  intro eng id price qty side type ts t ht
  cases side
  case Buy =>
    have h := submit_emitted_buy_price eng id price qty type ts t ht
    rcases hasks : eng.book.asks with _ | ⟨l, ls⟩
    · exact absurd hasks h.2
    · refine ⟨l, by simp [hasks], ?_⟩
      rw [h.1]
      simp [OrderBook.best_ask, hasks]
  case Sell =>
    have h := submit_emitted_sell_price eng id price qty type ts t ht
    rcases hbids : eng.book.bids with _ | ⟨l, ls⟩
    · exact absurd hbids h.2
    · refine ⟨l, by simp [hbids], ?_⟩
      rw [h.1]
      simp [OrderBook.best_bid, hbids]

theorem claim_C3_price_improvement_witness :
    ((⟨1, 2, 0, to_price 101, 50, 0, Side.Buy⟩ : Trade) ∈
        (MatchingEngine.submit_order s2SellOutcome.engine 2 (to_price 105) 50
          Side.Buy OrderType.Limit 0).emitted) ∧
    (∃ l : PriceLevel,
      (match Side.Buy with
       | Side.Buy => s2SellOutcome.engine.book.asks
       | Side.Sell => s2SellOutcome.engine.book.bids).head? = some l ∧
      (⟨1, 2, 0, to_price 101, 50, 0, Side.Buy⟩ : Trade).price = l.price) :=
  ⟨by decide,
   claim_C3_price_improvement.1 s2SellOutcome.engine 2 (to_price 105) 50
     Side.Buy OrderType.Limit 0 ⟨1, 2, 0, to_price 101, 50, 0, Side.Buy⟩
     (by decide)⟩

/-- Modelled from the spec: the specification's VWAP accumulation over a
list of (price, available quantity) levels already given in best-first
order: sum price * min(available, remaining) and the filled quantity over
the whole walk (fills become zero once remaining is exhausted). -/
def vwapSpecWalk : List (Int × Nat) → Nat → Int × Nat
  | [], _ => (0, 0)
  | (p, q) :: ls, remaining =>
    let fill := min q remaining
    let (ws, tf) := vwapSpecWalk ls (remaining - fill)
    (p * (fill : Int) + ws, fill + tf)

/-- Modelled from the spec: VWAP of a level list per the spec's words:
the integer-division quotient of the weighted sum by the total filled
quantity, absent when nothing fills. -/
def vwapSpec (levels : List (Int × Nat)) (target : Nat) : Option Int :=
  let (ws, tf) := vwapSpecWalk levels target
  if tf = 0 then none else some (Int.tdiv ws (tf : Int))

theorem vwapSpecWalk_zero (ls : List (Int × Nat)) : vwapSpecWalk ls 0 = (0, 0) := by
  induction ls with
  | nil => rfl
  | cons hd tl ih =>
    obtain ⟨p, q⟩ := hd
    simp [vwapSpecWalk, ih]

theorem vwapWalk_eq_spec (ls : List PriceLevel) (rem : Nat) :
    OrderBook.vwapWalk ls rem =
      vwapSpecWalk (ls.map fun l => (l.price, l.total_quantity)) rem := by
  induction ls generalizing rem with
  | nil => rfl
  | cons hd tl ih =>
    simp only [OrderBook.vwapWalk, List.map_cons, vwapSpecWalk]
    by_cases h0 : rem - hd.total_quantity ⊓ rem = 0
    · rw [if_pos h0, h0, vwapSpecWalk_zero]
      simp
    · rw [if_neg h0, ih]

/-- Side selection used by calculate_vwap: bids for Buy, asks for Sell
(order_book.cpp chooses the container from the side argument). -/
def sideLevels (b : OrderBook) (side : Side) : List PriceLevel :=
  match side with
  | Side.Buy => b.bids
  | Side.Sell => b.asks

def c4Book : OrderBook :=
  (((OrderBook.empty.add_order 11 (to_price 100) 100 Side.Sell
      OrderType.Limit 0).2.add_order 12 (to_price 101) 200 Side.Sell
      OrderType.Limit 0).2.add_order 13 (to_price 102) 100 Side.Sell
      OrderType.Limit 0).2

/-- C4 counterexample: on the book with asks (to_price 100, 100),
(to_price 101, 200), (to_price 102, 100) and no bids, calculate_vwap(Buy,
150) does not return 1003333 as the claim states: the source walks the
bid container for side Buy (not the opposite side), and the bid side is
empty, so the result is absent. -/
theorem claim_C4_counterexample :
    c4Book.calculate_vwap Side.Buy 150 = none ∧
    c4Book.calculate_vwap Side.Buy 150 ≠ some 1003333 := by
  decide

/-- C4 amended: calculate_vwap(side, target_qty) walks the levels of the
given side's own book (bids descending for side Buy, asks ascending for
side Sell) accumulating price * min(level quantity, remaining) until
remaining is 0 or levels are exhausted, and returns the truncating
integer-division quotient of the weighted sum by the total filled
quantity, or absent if nothing fills.  On the concrete book, the ask-side
walk calculate_vwap(Sell, 150) returns 1003333 and calculate_vwap(Buy,
150) is absent because the bid side is empty. -/
theorem claim_C4_vwap_walks_own_side :
    (∀ (b : OrderBook) (side : Side) (target : Nat),
      b.calculate_vwap side target =
        vwapSpec ((sideLevels b side).map
          fun l => (l.price, l.total_quantity)) target) ∧
    c4Book.calculate_vwap Side.Sell 150 = some 1003333 ∧
    c4Book.calculate_vwap Side.Buy 150 = none := by
  refine ⟨?_, by decide, by decide⟩
  intro b side target
  cases side <;>
    simp only [OrderBook.calculate_vwap, sideLevels, vwapSpec, vwapWalk_eq_spec] <;>
    split <;>
    rename_i hemp <;>
    simp_all [List.isEmpty_iff, vwapSpecWalk]

theorem lookup_eq_none_of_not_mem_keys (idx : List (Nat × Order)) (id : Nat)
    (h : id ∉ idx.map Prod.fst) : idx.lookup id = none := by
  induction idx with
  | nil => rfl
  | cons hd tl ih =>
    simp only [List.map_cons, List.mem_cons] at h
    push_neg at h
    simp only [List.lookup]
    rw [beq_eq_false_iff_ne.mpr h.1]
    exact ih h.2

theorem lookup_eraseP_self (idx : List (Nat × Order)) (id : Nat)
    (hnd : (idx.map Prod.fst).Nodup) :
    (idx.eraseP (fun e => e.1 == id)).lookup id = none := by
  induction idx with
  | nil => rfl
  | cons hd tl ih =>
    simp only [List.map_cons, List.nodup_cons] at hnd
    by_cases hk : hd.1 = id
    · rw [List.eraseP_cons_of_pos (by simpa using hk)]
      exact lookup_eq_none_of_not_mem_keys tl id (hk ▸ hnd.1)
    · rw [List.eraseP_cons_of_neg (by simpa using hk)]
      simp only [List.lookup]
      rw [beq_eq_false_iff_ne.mpr (fun he => hk he.symm)]
      exact ih hnd.2

theorem cancel_not_found (b : OrderBook) (id : Nat)
    (hnone : b.order_index.lookup id = none) :
    b.cancel_order id = (false, b) := by
  unfold OrderBook.cancel_order
  rw [hnone]

theorem cancel_true_index (b : OrderBook) (id : Nat)
    (htrue : (b.cancel_order id).1 = true) :
    (b.cancel_order id).2.order_index
      = b.order_index.eraseP (fun e => e.1 == id) := by
  unfold OrderBook.cancel_order at htrue ⊢
  rcases hlook : b.order_index.lookup id with _ | o
  · rw [hlook] at htrue
    simp at htrue
  · rw [hlook] at htrue
    by_cases hact : o.is_active = true
    · cases hside : o.side <;> simp_all
    · simp [hact] at htrue

/-- C9: cancel_order is idempotent at the public interface: cancelling an
id absent from the index returns false and leaves the book literally
unchanged; and once a cancel has returned true, cancelling the same id
again returns false and leaves the entire book state unchanged (the id no
longer resolves in the id index, whose keys are duplicate free as in the
source's unordered_map). -/
theorem claim_C9_cancel_idempotent (b : OrderBook) (id : Nat) :
    (b.order_index.lookup id = none → b.cancel_order id = (false, b)) ∧
    ((b.order_index.map Prod.fst).Nodup →
      (b.cancel_order id).1 = true →
      (b.cancel_order id).2.cancel_order id =
        (false, (b.cancel_order id).2)) := by
  constructor
  · exact cancel_not_found b id
  · intro hnd htrue
    refine cancel_not_found _ id ?_
    rw [cancel_true_index b id htrue]
    exact lookup_eraseP_self b.order_index id hnd

/-- Witness for C9 at a concrete input: on the book holding one bid
(id 1), cancelling id 1 succeeds, and the theorem yields that a second
cancel of id 1 returns false and changes nothing. -/
theorem claim_C9_cancel_idempotent_witness :
    (((OrderBook.empty.add_order 1 (to_price 100) 10 Side.Buy
        OrderType.Limit 0).2.order_index.map Prod.fst).Nodup ∧
     ((OrderBook.empty.add_order 1 (to_price 100) 10 Side.Buy
        OrderType.Limit 0).2.cancel_order 1).1 = true) ∧
    ((OrderBook.empty.add_order 1 (to_price 100) 10 Side.Buy
        OrderType.Limit 0).2.cancel_order 1).2.cancel_order 1 =
      (false,
       ((OrderBook.empty.add_order 1 (to_price 100) 10 Side.Buy
          OrderType.Limit 0).2.cancel_order 1).2) :=
  ⟨⟨by decide, by decide⟩,
   (claim_C9_cancel_idempotent
      (OrderBook.empty.add_order 1 (to_price 100) 10 Side.Buy
        OrderType.Limit 0).2 1).2 (by decide) (by decide)⟩

theorem roundtrip_levels (better : Int → Int → Bool) (p : Int) (o : Order)
    (ls : List PriceLevel)
    (hid : ∀ l ∈ ls, ∀ o' ∈ l.orders, o' ≠ o)
    (hne : ∀ l ∈ ls, l.orders ≠ []) :
    OrderBook.removeLevelIfEmpty p
      (OrderBook.removeFromLevels p o (OrderBook.addToLevels better p o ls))
      = ls := by
  induction ls with
  | nil =>
    simp [OrderBook.addToLevels, OrderBook.removeFromLevels,
      OrderBook.removeLevelIfEmpty, PriceLevel.mk', PriceLevel.add_order,
      PriceLevel.remove_order, PriceLevel.isEmptyLevel]
  | cons l ls ih =>
    simp only [OrderBook.addToLevels]
    by_cases h1 : better p l.price = true
    · rw [if_pos h1]
      simp [OrderBook.removeFromLevels, OrderBook.removeLevelIfEmpty,
        PriceLevel.mk', PriceLevel.add_order, PriceLevel.remove_order,
        PriceLevel.isEmptyLevel]
    · rw [if_neg h1]
      by_cases h2 : p = l.price
      · rw [if_pos h2]
        have ho : o ∉ l.orders := fun hmem =>
          (hid l (List.mem_cons_self l ls) o hmem) rfl
        have herase : (l.orders ++ [o]).erase o = l.orders := by
          rw [List.erase_append_right _ ho]
          simp
        have hlne : l.orders ≠ [] := hne l (List.mem_cons_self l ls)
        simp [OrderBook.removeFromLevels, OrderBook.removeLevelIfEmpty,
          PriceLevel.add_order, PriceLevel.remove_order,
          PriceLevel.isEmptyLevel, h2, herase, hlne,
          List.isEmpty_iff]
      · rw [if_neg h2]
        have hlp : ¬ l.price = p := fun he => h2 he.symm
        have ih' := ih
          (fun l' hl' => hid l' (List.mem_cons_of_mem l hl'))
          (fun l' hl' => hne l' (List.mem_cons_of_mem l hl'))
        simp [OrderBook.removeFromLevels, OrderBook.removeLevelIfEmpty,
          hlp, ih']

theorem add_cancel_roundtrip (b : OrderBook) (id : Nat) (price : Int)
    (quantity : Nat) (side : Side) (type : OrderType) (ts : Nat)
    (hidx : b.order_index.lookup id = none)
    (hpool : b.pool_in_use < POOL_CAPACITY)
    (hlv : ∀ l ∈ b.bids ++ b.asks, ∀ o' ∈ l.orders, o'.id ≠ id)
    (hne : ∀ l ∈ b.bids ++ b.asks, l.orders ≠ []) :
    (b.add_order id price quantity side type ts).2.cancel_order id
      = (true, b) := by
  have hbids_id : ∀ l ∈ b.bids, ∀ o' ∈ l.orders,
      o' ≠ mkOrder id price quantity side type ts := by
    intro l hl o' ho' he
    exact hlv l (List.mem_append_left _ hl) o' ho' (by rw [he]; rfl)
  have hasks_id : ∀ l ∈ b.asks, ∀ o' ∈ l.orders,
      o' ≠ mkOrder id price quantity side type ts := by
    intro l hl o' ho' he
    exact hlv l (List.mem_append_right _ hl) o' ho' (by rw [he]; rfl)
  have hbids_ne : ∀ l ∈ b.bids, l.orders ≠ [] :=
    fun l hl => hne l (List.mem_append_left _ hl)
  have hasks_ne : ∀ l ∈ b.asks, l.orders ≠ [] :=
    fun l hl => hne l (List.mem_append_right _ hl)
  unfold OrderBook.add_order
  rw [hidx]
  simp only [Option.isSome_none, Bool.false_eq_true, if_false,
    if_neg (Nat.not_le.mpr hpool)]
  cases side
  case Buy =>
    unfold OrderBook.cancel_order
    rw [show List.lookup id
        ((id, mkOrder id price quantity Side.Buy type ts) :: b.order_index)
        = some (mkOrder id price quantity Side.Buy type ts) from by
      simp [List.lookup]]
    dsimp only
    rw [show (mkOrder id price quantity Side.Buy type ts).is_active = true
      from rfl]
    simp only [not_true_eq_false, if_false, Bool.true_eq_false]
    rw [show (mkOrder id price quantity Side.Buy type ts).side = Side.Buy
      from rfl]
    dsimp only
    rw [show (mkOrder id price quantity Side.Buy type ts).price = price
      from rfl]
    rw [show (mkOrder id price quantity Side.Buy type ts).remaining = quantity
      from rfl]
    rw [roundtrip_levels _ _ _ _ hbids_id hbids_ne]
    simp [List.eraseP_cons_of_pos]
  case Sell =>
    unfold OrderBook.cancel_order
    rw [show List.lookup id
        ((id, mkOrder id price quantity Side.Sell type ts) :: b.order_index)
        = some (mkOrder id price quantity Side.Sell type ts) from by
      simp [List.lookup]]
    dsimp only
    rw [show (mkOrder id price quantity Side.Sell type ts).is_active = true
      from rfl]
    simp only [not_true_eq_false, if_false, Bool.true_eq_false]
    rw [show (mkOrder id price quantity Side.Sell type ts).side = Side.Sell
      from rfl]
    dsimp only
    rw [show (mkOrder id price quantity Side.Sell type ts).price = price
      from rfl]
    rw [show (mkOrder id price quantity Side.Sell type ts).remaining = quantity
      from rfl]
    rw [roundtrip_levels _ _ _ _ hasks_id hasks_ne]
    simp [List.eraseP_cons_of_pos]

/-- C7: adding a fresh order and cancelling it restores the book: for
any book whose resting levels are non-empty (source invariant d) and do
not already contain the id (a valid new id: absent from the id index and
from every level FIFO), with a pool slot available, add_order(id) followed
by cancel_order(id) returns true and restores best_bid, best_ask, the
full depth on both sides, both total volumes, and the total order count
to their pre-add values (in fact the whole book state is restored). -/
theorem claim_C7_add_cancel_roundtrip (b : OrderBook) (id : Nat)
    (price : Int) (quantity : Nat) (side : Side) (type : OrderType) (ts : Nat)
    (hidx : b.order_index.lookup id = none)
    (hpool : b.pool_in_use < POOL_CAPACITY)
    (hlv : ∀ l ∈ b.bids ++ b.asks, ∀ o' ∈ l.orders, o'.id ≠ id)
    (hne : ∀ l ∈ b.bids ++ b.asks, l.orders ≠ []) :
    ((b.add_order id price quantity side type ts).2.cancel_order id).1 = true ∧
    ((b.add_order id price quantity side type ts).2.cancel_order id).2.best_bid
      = b.best_bid ∧
    ((b.add_order id price quantity side type ts).2.cancel_order id).2.best_ask
      = b.best_ask ∧
    (∀ n, ((b.add_order id price quantity side type ts).2.cancel_order
        id).2.get_bid_depth n = b.get_bid_depth n) ∧
    (∀ n, ((b.add_order id price quantity side type ts).2.cancel_order
        id).2.get_ask_depth n = b.get_ask_depth n) ∧
    ((b.add_order id price quantity side type ts).2.cancel_order
        id).2.total_bid_volume = b.total_bid_volume ∧
    ((b.add_order id price quantity side type ts).2.cancel_order
        id).2.total_ask_volume = b.total_ask_volume ∧
    ((b.add_order id price quantity side type ts).2.cancel_order
        id).2.total_order_count = b.total_order_count := by
  rw [add_cancel_roundtrip b id price quantity side type ts hidx hpool hlv hne]
  simp

/-- Witness for C7 at a concrete input: a book holding one resting ask
(id 5), add id 6 as a bid, cancel id 6; the cancel returns true. -/
theorem claim_C7_add_cancel_roundtrip_witness :
    (((OrderBook.empty.add_order 5 (to_price 99) 7 Side.Sell
        OrderType.Limit 0).2.order_index.lookup 6 = none) ∧
     (OrderBook.empty.add_order 5 (to_price 99) 7 Side.Sell
        OrderType.Limit 0).2.pool_in_use < POOL_CAPACITY) ∧
    (((OrderBook.empty.add_order 5 (to_price 99) 7 Side.Sell
        OrderType.Limit 0).2.add_order 6 (to_price 100) 20 Side.Buy
        OrderType.Limit 0).2.cancel_order 6).1 = true :=
  ⟨⟨by decide, by decide⟩,
   (claim_C7_add_cancel_roundtrip
      (OrderBook.empty.add_order 5 (to_price 99) 7 Side.Sell
        OrderType.Limit 0).2 6 (to_price 100) 20 Side.Buy OrderType.Limit 0
      (by decide) (by decide) (by decide) (by decide)).1⟩

theorem vwap_sell_some (bk : OrderBook) (l : PriceLevel) (ls : List PriceLevel)
    (hask : bk.asks = l :: ls) (hl : 0 < l.total_quantity)
    (remaining : Nat) (hr : 0 < remaining) :
    (bk.calculate_vwap Side.Sell remaining).isNone = false := by
  unfold OrderBook.calculate_vwap
  rw [hask]
  simp only [List.isEmpty_cons, if_false]
  unfold OrderBook.vwapWalk
  have hfill : 0 < min l.total_quantity remaining := lt_min hl hr
  by_cases h0 : remaining - min l.total_quantity remaining = 0
  · rw [if_pos h0]
    simp [Nat.pos_iff_ne_zero.mp hfill]
  · rw [if_neg h0]
    have : min l.total_quantity remaining +
        (OrderBook.vwapWalk ls (remaining - min l.total_quantity remaining)).2 ≠ 0 := by
      omega
    simp [this]

theorem buyLoopAux_rem_zero (bk : OrderBook) (limit : Int) (aggid ts : Nat)
    (l : PriceLevel) (ls : List PriceLevel)
    (hask : bk.asks = l :: ls) (hl : 0 < l.total_quantity)
    (hcond : ¬ (bk.best_ask = INVALID_PRICE ∨ limit < bk.best_ask)) :
    ∀ fuel tid remaining, remaining ≤ fuel →
      (MatchingEngine.buyLoopAux bk limit aggid ts fuel tid remaining).2 = 0 := by
  intro fuel
  induction fuel with
  | zero =>
    intro tid remaining hle
    interval_cases remaining
    rfl
  | succ n ih =>
    intro tid remaining hle
    unfold MatchingEngine.buyLoopAux
    by_cases h0 : remaining = 0
    · rw [if_pos h0]
    · rw [if_neg h0]
      dsimp only
      rw [if_neg hcond]
      rw [if_neg (by
        simp [vwap_sell_some bk l ls hask hl remaining (Nat.pos_of_ne_zero h0)])]
      have havail : bk.best_ask_quantity = l.total_quantity := by
        unfold OrderBook.best_ask_quantity
        rw [hask]
      have hfill : ¬ min remaining bk.best_ask_quantity = 0 := by
        rw [havail]
        have := Nat.pos_of_ne_zero h0
        omega
      rw [if_neg hfill]
      rcases hrec : MatchingEngine.buyLoopAux bk limit aggid ts n (tid + 1)
          (remaining - min remaining bk.best_ask_quantity) with ⟨rest, rem2⟩
      have h2 := ih (tid + 1) (remaining - min remaining bk.best_ask_quantity)
        (by rw [havail]; have := Nat.pos_of_ne_zero h0; omega)
      rw [hrec] at h2
      simpa using h2

theorem sellLoopAux_rem_zero (bk : OrderBook) (limit : Int) (aggid ts : Nat)
    (l : PriceLevel) (ls : List PriceLevel)
    (hbid : bk.bids = l :: ls) (hl : 0 < l.total_quantity)
    (hcond : ¬ (bk.best_bid = INVALID_PRICE ∨ bk.best_bid < limit)) :
    ∀ fuel tid remaining, remaining ≤ fuel →
      (MatchingEngine.sellLoopAux bk limit aggid ts fuel tid remaining).2 = 0 := by
  intro fuel
  induction fuel with
  | zero =>
    intro tid remaining hle
    interval_cases remaining
    rfl
  | succ n ih =>
    intro tid remaining hle
    unfold MatchingEngine.sellLoopAux
    by_cases h0 : remaining = 0
    · rw [if_pos h0]
    · rw [if_neg h0]
      dsimp only
      rw [if_neg hcond]
      have havail : bk.best_bid_quantity = l.total_quantity := by
        unfold OrderBook.best_bid_quantity
        rw [hbid]
      have hfill : ¬ min remaining bk.best_bid_quantity = 0 := by
        rw [havail]
        have := Nat.pos_of_ne_zero h0
        omega
      rw [if_neg hfill]
      rcases hrec : MatchingEngine.sellLoopAux bk limit aggid ts n (tid + 1)
          (remaining - min remaining bk.best_bid_quantity) with ⟨rest, rem2⟩
      have h2 := ih (tid + 1) (remaining - min remaining bk.best_bid_quantity)
        (by rw [havail]; have := Nat.pos_of_ne_zero h0; omega)
      rw [hrec] at h2
      simpa using h2

/-- No-crossing condition as the claim states it: at least one side is
empty or the best bid is strictly below the best ask. -/
def Uncrossed (b : OrderBook) : Prop :=
  b.bids = [] ∨ b.asks = [] ∨ b.best_bid < b.best_ask

/-- Invariant maintained by engine-reachable books: every resting level
has positive total quantity (an empty level is removed at once) and a
price strictly below the INVALID_PRICE sentinel. -/
def GoodLevels (b : OrderBook) : Prop :=
  (∀ l ∈ b.bids, 0 < l.total_quantity ∧ l.price < INVALID_PRICE) ∧
  (∀ l ∈ b.asks, 0 < l.total_quantity ∧ l.price < INVALID_PRICE)

/-- Engine invariant: the book is well-levelled and uncrossed. -/
def EngInv (e : MatchingEngine) : Prop := GoodLevels e.book ∧ Uncrossed e.book

theorem addToLevels_pos_lt (f : Int → Int → Bool) (p : Int) (o : Order)
    (ls : List PriceLevel)
    (hls : ∀ l ∈ ls, 0 < l.total_quantity ∧ l.price < INVALID_PRICE)
    (ho : 0 < o.remaining) (hp : p < INVALID_PRICE) :
    ∀ l' ∈ OrderBook.addToLevels f p o ls,
      0 < l'.total_quantity ∧ l'.price < INVALID_PRICE := by
  induction ls with
  | nil =>
    intro l' hl'
    simp only [OrderBook.addToLevels, List.mem_singleton] at hl'
    subst hl'
    simp [PriceLevel.add_order, PriceLevel.mk', ho, hp]
  | cons l ls ih =>
    intro l' hl'
    simp only [OrderBook.addToLevels] at hl'
    by_cases h1 : f p l.price = true
    · rw [if_pos h1] at hl'
      rcases List.mem_cons.mp hl' with h | h
      · subst h
        simp [PriceLevel.add_order, PriceLevel.mk', ho, hp]
      · exact hls _ h
    · rw [if_neg h1] at hl'
      by_cases h2 : p = l.price
      · rw [if_pos h2] at hl'
        rcases List.mem_cons.mp hl' with h | h
        · subst h
          have := hls l (List.mem_cons_self l ls)
          constructor
          · simp only [PriceLevel.add_order]
            omega
          · simpa [PriceLevel.add_order] using this.2
        · exact hls _ (List.mem_cons_of_mem _ h)
      · rw [if_neg h2] at hl'
        rcases List.mem_cons.mp hl' with h | h
        · exact h ▸ hls l (List.mem_cons_self l ls)
        · exact ih (fun l'' hl'' => hls _ (List.mem_cons_of_mem _ hl'')) _ h

theorem bid_addToLevels_head (p : Int) (o : Order) (ls : List PriceLevel) :
    (ls = [] →
      ∃ tl, OrderBook.addToLevels (fun a c => decide (c < a)) p o ls
        = ⟨p, [o], o.remaining, 1⟩ :: tl) ∧
    (∀ l tl', ls = l :: tl' →
      ∃ l2 tl2, OrderBook.addToLevels (fun a c => decide (c < a)) p o ls
        = l2 :: tl2 ∧ l2.price = max p l.price) := by
  constructor
  · intro h
    subst h
    exact ⟨[], by simp [OrderBook.addToLevels, PriceLevel.mk',
      PriceLevel.add_order]⟩
  · intro l tl' h
    subst h
    simp only [OrderBook.addToLevels]
    by_cases h1 : l.price < p
    · rw [if_pos (by simpa using h1)]
      refine ⟨_, _, rfl, ?_⟩
      simp only [PriceLevel.mk', PriceLevel.add_order]
      omega
    · rw [if_neg (by simpa using h1)]
      by_cases h2 : p = l.price
      · rw [if_pos h2]
        refine ⟨_, _, rfl, ?_⟩
        simp only [PriceLevel.add_order, h2]
        omega
      · rw [if_neg h2]
        refine ⟨_, _, rfl, ?_⟩
        omega

theorem ask_addToLevels_head (p : Int) (o : Order) (ls : List PriceLevel) :
    (ls = [] →
      ∃ tl, OrderBook.addToLevels (fun a c => decide (a < c)) p o ls
        = ⟨p, [o], o.remaining, 1⟩ :: tl) ∧
    (∀ l tl', ls = l :: tl' →
      ∃ l2 tl2, OrderBook.addToLevels (fun a c => decide (a < c)) p o ls
        = l2 :: tl2 ∧ l2.price = min p l.price) := by
  constructor
  · intro h
    subst h
    exact ⟨[], by simp [OrderBook.addToLevels, PriceLevel.mk',
      PriceLevel.add_order]⟩
  · intro l tl' h
    subst h
    simp only [OrderBook.addToLevels]
    by_cases h1 : p < l.price
    · rw [if_pos (by simpa using h1)]
      refine ⟨_, _, rfl, ?_⟩
      simp only [PriceLevel.mk', PriceLevel.add_order]
      omega
    · rw [if_neg (by simpa using h1)]
      by_cases h2 : p = l.price
      · rw [if_pos h2]
        refine ⟨_, _, rfl, ?_⟩
        simp only [PriceLevel.add_order, h2]
        omega
      · rw [if_neg h2]
        refine ⟨_, _, rfl, ?_⟩
        omega

theorem best_bid_cons (b : OrderBook) (lb : PriceLevel) (tb : List PriceLevel)
    (h : b.bids = lb :: tb) : b.best_bid = lb.price := by
  unfold OrderBook.best_bid
  rw [h]

theorem best_ask_cons (b : OrderBook) (la : PriceLevel) (tl : List PriceLevel)
    (h : b.asks = la :: tl) : b.best_ask = la.price := by
  unfold OrderBook.best_ask
  rw [h]

theorem add_order_buy_inv (b : OrderBook) (id : Nat) (p : Int) (q : Nat)
    (type : OrderType) (ts : Nat)
    (hg : GoodLevels b) (hu : Uncrossed b)
    (hq : 0 < q) (hp : p < INVALID_PRICE)
    (hexit : b.asks = [] ∨ p < b.best_ask) :
    GoodLevels (b.add_order id p q Side.Buy type ts).2 ∧
    Uncrossed (b.add_order id p q Side.Buy type ts).2 := by
  unfold OrderBook.add_order
  split
  · exact ⟨hg, hu⟩
  · split
    · exact ⟨hg, hu⟩
    · dsimp only
      have hrem : (mkOrder id p q Side.Buy type ts).remaining = q := rfl
      constructor
      · constructor
        · intro l' hl'
          exact addToLevels_pos_lt _ p _ b.bids hg.1 (hrem ▸ hq) hp l' hl'
        · exact hg.2
      · rcases hasks : b.asks with _ | ⟨la, lt⟩
        · exact Or.inr (Or.inl rfl)
        · have hplt : p < la.price := by
            rcases hexit with he | he
            · rw [he] at hasks
              cases hasks
            · rw [best_ask_cons b la lt hasks] at he
              exact he
          refine Or.inr (Or.inr ?_)
          unfold OrderBook.best_bid OrderBook.best_ask
          dsimp only
          rcases hbids : b.bids with _ | ⟨lb, tb⟩
          · obtain ⟨tl, htl⟩ := (bid_addToLevels_head p
              (mkOrder id p q Side.Buy type ts) []).1 rfl
            rw [htl]
            exact hplt
          · obtain ⟨l2, tl2, hl2, hl2p⟩ := (bid_addToLevels_head p
              (mkOrder id p q Side.Buy type ts) (lb :: tb)).2 lb tb rfl
            rw [hl2]
            dsimp only
            rw [hl2p]
            have hob : lb.price < la.price := by
              rcases hu with h | h | h
              · rw [h] at hbids
                cases hbids
              · rw [h] at hasks
                cases hasks
              · rw [best_bid_cons b lb tb hbids, best_ask_cons b la lt hasks] at h
                exact h
            omega

theorem add_order_sell_inv (b : OrderBook) (id : Nat) (p : Int) (q : Nat)
    (type : OrderType) (ts : Nat)
    (hg : GoodLevels b) (hu : Uncrossed b)
    (hq : 0 < q) (hp : p < INVALID_PRICE)
    (hexit : b.bids = [] ∨ b.best_bid < p) :
    GoodLevels (b.add_order id p q Side.Sell type ts).2 ∧
    Uncrossed (b.add_order id p q Side.Sell type ts).2 := by
  unfold OrderBook.add_order
  split
  · exact ⟨hg, hu⟩
  · split
    · exact ⟨hg, hu⟩
    · dsimp only
      have hrem : (mkOrder id p q Side.Sell type ts).remaining = q := rfl
      constructor
      · constructor
        · exact hg.1
        · intro l' hl'
          exact addToLevels_pos_lt _ p _ b.asks hg.2 (hrem ▸ hq) hp l' hl'
      · rcases hbids : b.bids with _ | ⟨lb, tb⟩
        · exact Or.inl rfl
        · have hplt : lb.price < p := by
            rcases hexit with he | he
            · rw [he] at hbids
              cases hbids
            · rw [best_bid_cons b lb tb hbids] at he
              exact he
          refine Or.inr (Or.inr ?_)
          unfold OrderBook.best_bid OrderBook.best_ask
          dsimp only
          rcases hasks : b.asks with _ | ⟨la, lt⟩
          · obtain ⟨tl, htl⟩ := (ask_addToLevels_head p
              (mkOrder id p q Side.Sell type ts) []).1 rfl
            rw [htl]
            exact hplt
          · obtain ⟨l2, tl2, hl2, hl2p⟩ := (ask_addToLevels_head p
              (mkOrder id p q Side.Sell type ts) (la :: lt)).2 la lt rfl
            rw [hl2]
            dsimp only
            rw [hl2p]
            have hob : lb.price < la.price := by
              rcases hu with h | h | h
              · rw [h] at hbids
                cases hbids
              · rw [h] at hasks
                cases hasks
              · rw [best_bid_cons b lb tb hbids, best_ask_cons b la lt hasks] at h
                exact h
            omega


theorem submit_book_cases (eng : MatchingEngine) (id : Nat) (price : Int)
    (quantity : Nat) (side : Side) (type : OrderType) (ts : Nat) :
    (MatchingEngine.submit_order eng id price quantity side type ts).engine.book
      = eng.book ∨
    (type = OrderType.Limit ∧
      ((side = Side.Buy ∧
        0 < (MatchingEngine.buyLoop eng.book price id ts
          eng.next_trade_id quantity).2 ∧
        (MatchingEngine.submit_order eng id price quantity side type
            ts).engine.book
          = (eng.book.add_order id price
              (MatchingEngine.buyLoop eng.book price id ts
                eng.next_trade_id quantity).2
              Side.Buy OrderType.Limit ts).2) ∨
       (side = Side.Sell ∧
        0 < (MatchingEngine.sellLoop eng.book price id ts
          eng.next_trade_id quantity).2 ∧
        (MatchingEngine.submit_order eng id price quantity side type
            ts).engine.book
          = (eng.book.add_order id price
              (MatchingEngine.sellLoop eng.book price id ts
                eng.next_trade_id quantity).2
              Side.Sell OrderType.Limit ts).2))) := by
  unfold MatchingEngine.submit_order
  by_cases hv : MatchingEngine.validate_order eng.config id price quantity type = true
  case neg =>
    rw [if_pos (by simpa using hv)]
    left
    rfl
  case pos =>
  rw [if_neg (by simpa using hv)]
  by_cases hm : type = OrderType.Market ∧ ¬ eng.config.allow_market_orders = true
  · rw [if_pos hm]
    left
    rfl
  · rw [if_neg hm]
    by_cases hf : type = OrderType.FOK ∧ ¬ eng.config.allow_fok_orders = true
    · rw [if_pos hf]
      left
      rfl
    · rw [if_neg hf]
      cases side
      case _ =>
        cases type
        case Limit =>
          rw [if_neg (show ¬ OrderType.Limit = OrderType.Market from by decide)]
          dsimp only
          rcases hbl : MatchingEngine.buyLoop eng.book price id ts
              eng.next_trade_id quantity with ⟨trades, rem⟩
          dsimp only
          by_cases hrem : 0 < rem
          · rw [if_pos hrem]
            rw [if_neg (show ¬ (OrderType.Limit = OrderType.Market ∨
              OrderType.Limit = OrderType.IOC) from by decide)]
            rw [if_neg (show ¬ OrderType.Limit = OrderType.FOK from by decide)]
            rcases hao : OrderBook.add_order eng.book id price rem Side.Buy
                OrderType.Limit ts with ⟨added, book2⟩
            dsimp only
            cases added <;>
              (right; exact ⟨rfl, Or.inl ⟨rfl, hrem, rfl⟩⟩)
          · rw [if_neg hrem]
            left
            rfl
        case Market =>
          rw [if_pos rfl]
          dsimp only
          rcases hbl : MatchingEngine.buyLoop eng.book I64_MAX id ts
              eng.next_trade_id quantity with ⟨trades, rem⟩
          dsimp only
          by_cases hrem : 0 < rem
          · rw [if_pos hrem,
              if_pos (show OrderType.Market = OrderType.Market ∨
                OrderType.Market = OrderType.IOC from Or.inl rfl)]
            left
            rfl
          · rw [if_neg hrem]
            left
            rfl
        case IOC =>
          rw [if_neg (show ¬ OrderType.IOC = OrderType.Market from by decide)]
          dsimp only
          rcases hbl : MatchingEngine.buyLoop eng.book price id ts
              eng.next_trade_id quantity with ⟨trades, rem⟩
          dsimp only
          by_cases hrem : 0 < rem
          · rw [if_pos hrem,
              if_pos (show OrderType.IOC = OrderType.Market ∨
                OrderType.IOC = OrderType.IOC from Or.inr rfl)]
            left
            rfl
          · rw [if_neg hrem]
            left
            rfl
        case FOK =>
          rw [if_neg (show ¬ OrderType.FOK = OrderType.Market from by decide)]
          dsimp only
          rcases hbl : MatchingEngine.buyLoop eng.book price id ts
              eng.next_trade_id quantity with ⟨trades, rem⟩
          dsimp only
          by_cases hrem : 0 < rem
          · rw [if_pos hrem,
              if_neg (show ¬ (OrderType.FOK = OrderType.Market ∨
                OrderType.FOK = OrderType.IOC) from by decide),
              if_pos (show OrderType.FOK = OrderType.FOK from rfl)]
            split <;> (left; rfl)
          · rw [if_neg hrem]
            left
            rfl
      case _ =>
        cases type
        case Limit =>
          rw [if_neg (show ¬ OrderType.Limit = OrderType.Market from by decide)]
          dsimp only
          rcases hbl : MatchingEngine.sellLoop eng.book price id ts
              eng.next_trade_id quantity with ⟨trades, rem⟩
          dsimp only
          by_cases hrem : 0 < rem
          · rw [if_pos hrem]
            rw [if_neg (show ¬ (OrderType.Limit = OrderType.Market ∨
              OrderType.Limit = OrderType.IOC) from by decide)]
            rw [if_neg (show ¬ OrderType.Limit = OrderType.FOK from by decide)]
            rcases hao : OrderBook.add_order eng.book id price rem Side.Sell
                OrderType.Limit ts with ⟨added, book2⟩
            dsimp only
            cases added <;>
              (right; exact ⟨rfl, Or.inr ⟨rfl, hrem, rfl⟩⟩)
          · rw [if_neg hrem]
            left
            rfl
        case Market =>
          rw [if_pos rfl]
          dsimp only
          rcases hbl : MatchingEngine.sellLoop eng.book I64_MIN id ts
              eng.next_trade_id quantity with ⟨trades, rem⟩
          dsimp only
          by_cases hrem : 0 < rem
          · rw [if_pos hrem,
              if_pos (show OrderType.Market = OrderType.Market ∨
                OrderType.Market = OrderType.IOC from Or.inl rfl)]
            left
            rfl
          · rw [if_neg hrem]
            left
            rfl
        case IOC =>
          rw [if_neg (show ¬ OrderType.IOC = OrderType.Market from by decide)]
          dsimp only
          rcases hbl : MatchingEngine.sellLoop eng.book price id ts
              eng.next_trade_id quantity with ⟨trades, rem⟩
          dsimp only
          by_cases hrem : 0 < rem
          · rw [if_pos hrem,
              if_pos (show OrderType.IOC = OrderType.Market ∨
                OrderType.IOC = OrderType.IOC from Or.inr rfl)]
            left
            rfl
          · rw [if_neg hrem]
            left
            rfl
        case FOK =>
          rw [if_neg (show ¬ OrderType.FOK = OrderType.Market from by decide)]
          dsimp only
          rcases hbl : MatchingEngine.sellLoop eng.book price id ts
              eng.next_trade_id quantity with ⟨trades, rem⟩
          dsimp only
          by_cases hrem : 0 < rem
          · rw [if_pos hrem,
              if_neg (show ¬ (OrderType.FOK = OrderType.Market ∨
                OrderType.FOK = OrderType.IOC) from by decide),
              if_pos (show OrderType.FOK = OrderType.FOK from rfl)]
            split <;> (left; rfl)
          · rw [if_neg hrem]
            left
            rfl



theorem submit_preserves_inv (eng : MatchingEngine) (id : Nat) (price : Int)
    (quantity : Nat) (side : Side) (type : OrderType) (ts : Nat)
    (hp : price < INVALID_PRICE) (hinv : EngInv eng) :
    EngInv (MatchingEngine.submit_order eng id price quantity side type
      ts).engine := by
  obtain ⟨hg, hu⟩ := hinv
  rcases submit_book_cases eng id price quantity side type ts with
    hb | ⟨htype, ⟨hside, hrem, hbook⟩ | ⟨hside, hrem, hbook⟩⟩
  · unfold EngInv
    rw [hb]
    exact ⟨hg, hu⟩
  · unfold EngInv
    rw [hbook]
    have hexit : eng.book.asks = [] ∨ price < eng.book.best_ask := by
      by_contra hcon
      push_neg at hcon
      obtain ⟨hne, hge⟩ := hcon
      rcases hasks : eng.book.asks with _ | ⟨la, lt⟩
      · exact hne hasks
      · have hl := hg.2 la (by rw [hasks]; exact List.mem_cons_self la lt)
        have hz := buyLoopAux_rem_zero eng.book price id ts la lt hasks hl.1
          (by
            intro hd
            rcases hd with hd | hd
            · rw [best_ask_cons eng.book la lt hasks] at hd
              rw [hd] at hl
              exact absurd hl.2 (lt_irrefl _)
            · exact absurd hd (not_lt.mpr hge))
          quantity eng.next_trade_id quantity le_rfl
        have : MatchingEngine.buyLoop eng.book price id ts
            eng.next_trade_id quantity
          = MatchingEngine.buyLoopAux eng.book price id ts quantity
              eng.next_trade_id quantity := rfl
        rw [this, hz] at hrem
        exact absurd hrem (lt_irrefl 0)
    exact add_order_buy_inv eng.book id price _ OrderType.Limit ts hg hu
      hrem hp hexit
  · unfold EngInv
    rw [hbook]
    have hexit : eng.book.bids = [] ∨ eng.book.best_bid < price := by
      by_contra hcon
      push_neg at hcon
      obtain ⟨hne, hge⟩ := hcon
      rcases hbids : eng.book.bids with _ | ⟨lb, tb⟩
      · exact hne hbids
      · have hl := hg.1 lb (by rw [hbids]; exact List.mem_cons_self lb tb)
        have hz := sellLoopAux_rem_zero eng.book price id ts lb tb hbids hl.1
          (by
            intro hd
            rcases hd with hd | hd
            · rw [best_bid_cons eng.book lb tb hbids] at hd
              rw [hd] at hl
              exact absurd hl.2 (lt_irrefl _)
            · exact absurd hd (not_lt.mpr hge))
          quantity eng.next_trade_id quantity le_rfl
        have : MatchingEngine.sellLoop eng.book price id ts
            eng.next_trade_id quantity
          = MatchingEngine.sellLoopAux eng.book price id ts quantity
              eng.next_trade_id quantity := rfl
        rw [this, hz] at hrem
        exact absurd hrem (lt_irrefl 0)
    exact add_order_sell_inv eng.book id price _ OrderType.Limit ts hg hu
      hrem hp hexit

/-- One order submission, as a record, for reasoning about sequences of
submit_order calls. -/
structure Submission where
  id : Nat
  price : Int
  quantity : Nat
  side : Side
  type : OrderType
  timestamp : Nat
deriving DecidableEq, Repr

/-- Run one submission against an engine, keeping the engine state. -/
def applySubmit (e : MatchingEngine) (s : Submission) : MatchingEngine :=
  (MatchingEngine.submit_order e s.id s.price s.quantity s.side s.type
    s.timestamp).engine

/-- Run a sequence of submissions left to right. -/
def applySubmits (e : MatchingEngine) (ss : List Submission) : MatchingEngine :=
  ss.foldl applySubmit e

theorem engInv_init (cfg : MatchingEngineConfig) :
    EngInv (MatchingEngine.init cfg) := by
  refine ⟨⟨?_, ?_⟩, Or.inl rfl⟩ <;> intro l hl <;> cases hl

theorem applySubmits_inv (ss : List Submission) :
    ∀ e : MatchingEngine, (∀ s ∈ ss, s.price < INVALID_PRICE) →
      EngInv e → EngInv (applySubmits e ss) := by
  induction ss with
  | nil => intro e _ he; exact he
  | cons s tl ih =>
    intro e hs he
    exact ih _ (fun s' hs' => hs s' (List.mem_cons_of_mem s hs'))
      (submit_preserves_inv e s.id s.price s.quantity s.side s.type
        s.timestamp (hs s (List.mem_cons_self s tl)) he)

/-- C6 counterexample: submitting a Buy Limit at price INT64_MAX (which
equals the INVALID_PRICE sentinel and passes validation, since only
price <= 0 is rejected) and then a Sell Limit at the same price leaves
both sides non-empty with best_bid = best_ask = INVALID_PRICE: the sell
sweep mistakes the resting bid's price for the empty-side sentinel,
breaks immediately, and rests the crossing sell, so the book is crossed
after a submit_order call. -/
theorem claim_C6_counterexample :
    (applySubmits (MatchingEngine.init {})
      [⟨1, I64_MAX, 1, Side.Buy, OrderType.Limit, 0⟩,
       ⟨2, I64_MAX, 1, Side.Sell, OrderType.Limit, 0⟩]).book.bids ≠ [] ∧
    (applySubmits (MatchingEngine.init {})
      [⟨1, I64_MAX, 1, Side.Buy, OrderType.Limit, 0⟩,
       ⟨2, I64_MAX, 1, Side.Sell, OrderType.Limit, 0⟩]).book.asks ≠ [] ∧
    ¬ (applySubmits (MatchingEngine.init {})
      [⟨1, I64_MAX, 1, Side.Buy, OrderType.Limit, 0⟩,
       ⟨2, I64_MAX, 1, Side.Sell, OrderType.Limit, 0⟩]).book.best_bid <
      (applySubmits (MatchingEngine.init {})
      [⟨1, I64_MAX, 1, Side.Buy, OrderType.Limit, 0⟩,
       ⟨2, I64_MAX, 1, Side.Sell, OrderType.Limit, 0⟩]).book.best_ask := by
  decide

theorem buyLoopAux_rem_le (bk : OrderBook) (limit : Int) (aggid ts : Nat) :
    ∀ fuel tid remaining,
      (MatchingEngine.buyLoopAux bk limit aggid ts fuel tid remaining).2
        ≤ remaining := by
  intro fuel
  induction fuel with
  | zero => intro tid remaining; exact le_rfl
  | succ n ih =>
    intro tid remaining
    unfold MatchingEngine.buyLoopAux
    by_cases h0 : remaining = 0
    · rw [if_pos h0]
      omega
    · rw [if_neg h0]
      dsimp only
      split
      · exact le_rfl
      · split
        · exact le_rfl
        · split
          · exact le_rfl
          · rcases hrec : MatchingEngine.buyLoopAux bk limit aggid ts n
                (tid + 1) (remaining - min remaining bk.best_ask_quantity)
              with ⟨rest, rem2⟩
            have h2 := ih (tid + 1)
              (remaining - min remaining bk.best_ask_quantity)
            rw [hrec] at h2
            simp only at h2 ⊢
            omega

theorem sellLoopAux_rem_le (bk : OrderBook) (limit : Int) (aggid ts : Nat) :
    ∀ fuel tid remaining,
      (MatchingEngine.sellLoopAux bk limit aggid ts fuel tid remaining).2
        ≤ remaining := by
  intro fuel
  induction fuel with
  | zero => intro tid remaining; exact le_rfl
  | succ n ih =>
    intro tid remaining
    unfold MatchingEngine.sellLoopAux
    by_cases h0 : remaining = 0
    · rw [if_pos h0]
      omega
    · rw [if_neg h0]
      dsimp only
      split
      · exact le_rfl
      · split
        · exact le_rfl
        · rcases hrec : MatchingEngine.sellLoopAux bk limit aggid ts n
              (tid + 1) (remaining - min remaining bk.best_bid_quantity)
            with ⟨rest, rem2⟩
          have h2 := ih (tid + 1)
            (remaining - min remaining bk.best_bid_quantity)
          rw [hrec] at h2
          simp only at h2 ⊢
          omega

/-- Sum of the cached total quantities of a list of levels. -/
def levelsVolume (ls : List PriceLevel) : Nat :=
  (ls.map PriceLevel.total_quantity).sum

/-- Total resting quantity recorded across both sides of the book. -/
def bookVolume (b : OrderBook) : Nat :=
  levelsVolume b.bids + levelsVolume b.asks

/-- Total quantity of a list of submissions. -/
def sumQ (ss : List Submission) : Nat :=
  (ss.map Submission.quantity).sum

theorem addToLevels_volume (f : Int → Int → Bool) (p : Int) (o : Order)
    (ls : List PriceLevel) :
    levelsVolume (OrderBook.addToLevels f p o ls)
      = levelsVolume ls + o.remaining := by
  induction ls with
  | nil =>
    simp [OrderBook.addToLevels, levelsVolume, PriceLevel.mk',
      PriceLevel.add_order]
  | cons l tl ih =>
    simp only [OrderBook.addToLevels]
    by_cases h1 : f p l.price = true
    · rw [if_pos h1]
      simp [levelsVolume, PriceLevel.mk', PriceLevel.add_order]
      omega
    · rw [if_neg h1]
      by_cases h2 : p = l.price
      · rw [if_pos h2]
        simp [levelsVolume, PriceLevel.add_order]
        omega
      · rw [if_neg h2]
        simp only [levelsVolume, List.map_cons, List.sum_cons] at ih ⊢
        omega

theorem add_order_volume (b : OrderBook) (id : Nat) (p : Int) (q : Nat)
    (side : Side) (type : OrderType) (ts : Nat) :
    bookVolume (b.add_order id p q side type ts).2
      ≤ bookVolume b + q := by
  unfold OrderBook.add_order
  split
  · dsimp only
    omega
  · split
    · dsimp only
      omega
    · dsimp only
      have hrem : (mkOrder id p q side type ts).remaining = q := rfl
      cases side <;>
        simp [bookVolume, addToLevels_volume, hrem] <;>
        omega

theorem submit_volume_le (eng : MatchingEngine) (id : Nat) (price : Int)
    (quantity : Nat) (side : Side) (type : OrderType) (ts : Nat) :
    bookVolume (MatchingEngine.submit_order eng id price quantity side type
      ts).engine.book ≤ bookVolume eng.book + quantity := by
  rcases submit_book_cases eng id price quantity side type ts with
    hb | ⟨htype, ⟨hside, hrem, hbook⟩ | ⟨hside, hrem, hbook⟩⟩
  · rw [hb]
    omega
  · rw [hbook]
    have h1 := add_order_volume eng.book id price
      (MatchingEngine.buyLoop eng.book price id ts eng.next_trade_id
        quantity).2 Side.Buy OrderType.Limit ts
    have h2 : (MatchingEngine.buyLoop eng.book price id ts eng.next_trade_id
        quantity).2 ≤ quantity :=
      buyLoopAux_rem_le eng.book price id ts quantity eng.next_trade_id
        quantity
    omega
  · rw [hbook]
    have h1 := add_order_volume eng.book id price
      (MatchingEngine.sellLoop eng.book price id ts eng.next_trade_id
        quantity).2 Side.Sell OrderType.Limit ts
    have h2 : (MatchingEngine.sellLoop eng.book price id ts eng.next_trade_id
        quantity).2 ≤ quantity :=
      sellLoopAux_rem_le eng.book price id ts quantity eng.next_trade_id
        quantity
    omega

theorem applySubmits_inv_vol (ss : List Submission) :
    ∀ e : MatchingEngine, (∀ s ∈ ss, s.price < INVALID_PRICE) →
      EngInv e →
      EngInv (applySubmits e ss) ∧
      bookVolume (applySubmits e ss).book ≤ bookVolume e.book + sumQ ss := by
  induction ss with
  | nil =>
    intro e _ he
    exact ⟨he, by simp [sumQ, applySubmits]⟩
  | cons s tl ih =>
    intro e hs he
    have he2 := submit_preserves_inv e s.id s.price s.quantity s.side s.type
      s.timestamp (hs s (List.mem_cons_self s tl)) he
    have hv2 := submit_volume_le e s.id s.price s.quantity s.side s.type
      s.timestamp
    have hih := ih (applySubmit e s)
      (fun s2 hs2 => hs s2 (List.mem_cons_of_mem s hs2)) he2
    refine ⟨hih.1, ?_⟩
    have hsq : sumQ (s :: tl) = s.quantity + sumQ tl := by
      simp [sumQ]
    have : applySubmits e (s :: tl) = applySubmits (applySubmit e s) tl := rfl
    rw [this, hsq]
    have := hih.2
    unfold applySubmit at this hv2 ⊢
    omega

theorem member_le_levelsVolume (l : PriceLevel) (ls : List PriceLevel)
    (h : l ∈ ls) : l.total_quantity ≤ levelsVolume ls := by
  induction ls with
  | nil => cases h
  | cons hd tl ih =>
    rcases List.mem_cons.mp h with h1 | h1
    · rw [h1]
      simp only [levelsVolume, List.map_cons, List.sum_cons]
      omega
    · have := ih h1
      simp only [levelsVolume, List.map_cons, List.sum_cons] at this ⊢
      omega

/-- C6 amended: after every submit_order call in any sequence of
submissions run from a fresh engine, the book is never crossed — either a
side is empty or best_bid < best_ask — provided (a) every submitted price
is strictly below the INVALID_PRICE sentinel, and (b) the total submitted
quantity of the sequence is below 2^64, so no uint64 level-total
wraparound can occur.  Either proviso is necessary: a Limit order priced
exactly at INT64_MAX is mistaken for the empty-side sentinel by the
opposite sweep and can rest crossed (the counterexample), and resting
2^64 of volume at one price wraps the C++ level total to zero, after
which the sweep treats the level as empty and an aggressive order rests
crossed.  The second conclusion certifies that under the budget every
level total stays below 2^64 throughout, so the untruncated totals of
this model coincide with the program's uint64 values on the theorem's
whole domain. -/
theorem claim_C6_no_crossing (cfg : MatchingEngineConfig)
    (ss : List Submission)
    (hp : ∀ s ∈ ss, s.price < INVALID_PRICE)
    (hq : sumQ ss < 2 ^ 64) :
    Uncrossed (applySubmits (MatchingEngine.init cfg) ss).book ∧
    ∀ l ∈ (applySubmits (MatchingEngine.init cfg) ss).book.bids ++
        (applySubmits (MatchingEngine.init cfg) ss).book.asks,
      l.total_quantity < 2 ^ 64 := by
  have h := applySubmits_inv_vol ss (MatchingEngine.init cfg) hp
    (engInv_init cfg)
  refine ⟨h.1.2, ?_⟩
  intro l hl
  have h0 : bookVolume (MatchingEngine.init cfg).book = 0 := rfl
  have hvol : bookVolume (applySubmits (MatchingEngine.init cfg) ss).book
      < 2 ^ 64 := by
    have := h.2
    omega
  rcases List.mem_append.mp hl with h1 | h1
  · have := member_le_levelsVolume l _ h1
    unfold bookVolume at hvol
    omega
  · have := member_le_levelsVolume l _ h1
    unfold bookVolume at hvol
    omega

/-- Witness for C6 at a concrete input: the S1 submissions (Sell 100x100
then Buy 100x60) satisfy both provisos and leave the book uncrossed. -/
theorem claim_C6_no_crossing_witness :
    ((∀ s ∈ [(⟨1, to_price 100, 100, Side.Sell, OrderType.Limit, 0⟩ :
          Submission),
        ⟨2, to_price 100, 60, Side.Buy, OrderType.Limit, 0⟩],
        s.price < INVALID_PRICE) ∧
      sumQ [(⟨1, to_price 100, 100, Side.Sell, OrderType.Limit, 0⟩ :
          Submission),
        ⟨2, to_price 100, 60, Side.Buy, OrderType.Limit, 0⟩] < 2 ^ 64) ∧
    Uncrossed (applySubmits (MatchingEngine.init {})
      [⟨1, to_price 100, 100, Side.Sell, OrderType.Limit, 0⟩,
       ⟨2, to_price 100, 60, Side.Buy, OrderType.Limit, 0⟩]).book :=
  ⟨⟨by decide, by decide⟩,
   (claim_C6_no_crossing {}
     [⟨1, to_price 100, 100, Side.Sell, OrderType.Limit, 0⟩,
      ⟨2, to_price 100, 60, Side.Buy, OrderType.Limit, 0⟩]
     (by decide) (by decide)).1⟩

/-- SPSC ring buffer, from ring_buffer.hpp, modelled for the
single-threaded (sequential) use the claim describes.  A compile-time
power-of-two capacity 2^k is passed to the operations as the exponent k.
The buffer array is a total function read modulo the capacity; write_pos
and read_pos are the two indices, always kept below the capacity. -/
structure SPSCRingBuffer (T : Type) where
  buffer : Nat → T
  write_pos : Nat
  read_pos : Nat

namespace SPSCRingBuffer

/-- Freshly constructed ring: zeroed indices, value-initialised array. -/
def new (T : Type) [Inhabited T] : SPSCRingBuffer T :=
  ⟨fun _ => default, 0, 0⟩

/-- SPSCRingBuffer::try_push: compute next_write = (write_pos + 1) & MASK;
full when it equals read_pos, otherwise store the item at write_pos and
publish next_write. -/
def try_push {T : Type} (k : Nat) (rb : SPSCRingBuffer T) (item : T) :
    Bool × SPSCRingBuffer T :=
  let next_write := (rb.write_pos + 1) &&& (2 ^ k - 1)
  if next_write = rb.read_pos then (false, rb)
  else
    (true,
     { buffer := fun i => if i = rb.write_pos then item else rb.buffer i
       write_pos := next_write
       read_pos := rb.read_pos })

/-- SPSCRingBuffer::try_pop: empty when read_pos equals write_pos,
otherwise read the item at read_pos and advance read_pos by one, masked. -/
def try_pop {T : Type} (k : Nat) (rb : SPSCRingBuffer T) :
    Option T × SPSCRingBuffer T :=
  if rb.read_pos = rb.write_pos then (none, rb)
  else
    (some (rb.buffer rb.read_pos),
     { rb with read_pos := (rb.read_pos + 1) &&& (2 ^ k - 1) })

/-- SPSCRingBuffer::size(): (write - read + Capacity) & MASK; the C++
size_t wraparound of write - read agrees with this Nat expression under
the index invariant. -/
def size {T : Type} (k : Nat) (rb : SPSCRingBuffer T) : Nat :=
  (rb.write_pos + 2 ^ k - rb.read_pos) &&& (2 ^ k - 1)

/-- SPSCRingBuffer::capacity(): Capacity - 1, one slot kept empty to
distinguish full from empty. -/
def capacity (k : Nat) : Nat := 2 ^ k - 1

/-- Abstraction of the ring as the queue of its pending items, read side
first. -/
def toList {T : Type} (k : Nat) (rb : SPSCRingBuffer T) : List T :=
  (List.range (size k rb)).map fun i => rb.buffer ((rb.read_pos + i) % 2 ^ k)

/-- Index invariant: both positions below the capacity (they are only
ever assigned masked values or zero). -/
def RingInv {T : Type} (k : Nat) (rb : SPSCRingBuffer T) : Prop :=
  rb.write_pos < 2 ^ k ∧ rb.read_pos < 2 ^ k

/-- n consecutive try_push calls on a fresh ring, with the conjunction of
their results. -/
def pushN {T : Type} [Inhabited T] (k : Nat) (items : Nat → T) :
    Nat → SPSCRingBuffer T × Bool
  | 0 => (new T, true)
  | n + 1 =>
    let (rb, ok) := pushN k items n
    let (ok2, rb2) := try_push k rb (items n)
    (rb2, ok && ok2)

theorem mask_eq_mod (k x : Nat) : x &&& (2 ^ k - 1) = x % 2 ^ k :=
  Nat.and_pow_two_sub_one_eq_mod x k

theorem mod_two_cases (C a : Nat) (hC : 0 < C) (ha : a < 2 * C) :
    a % C = if a < C then a else a - C := by
  split
  · exact Nat.mod_eq_of_lt (by omega)
  · rw [Nat.mod_eq_sub_mod (by omega)]
    exact Nat.mod_eq_of_lt (by omega)

theorem size_eq_mod {T : Type} (k : Nat) (rb : SPSCRingBuffer T) :
    size k rb = (rb.write_pos + 2 ^ k - rb.read_pos) % 2 ^ k :=
  mask_eq_mod k _

theorem size_lt {T : Type} (k : Nat) (rb : SPSCRingBuffer T)
    (h : RingInv k rb) : size k rb < 2 ^ k := by
  rw [size_eq_mod]
  exact Nat.mod_lt _ (Nat.pos_pow_of_pos k (by omega))

theorem read_add_size {T : Type} (k : Nat) (rb : SPSCRingBuffer T)
    (h : RingInv k rb) :
    (rb.read_pos + size k rb) % 2 ^ k = rb.write_pos := by
  obtain ⟨hw, hr⟩ := h
  rw [size_eq_mod]
  have h2 : (rb.read_pos + (rb.write_pos + 2 ^ k - rb.read_pos) % 2 ^ k) % 2 ^ k
      = (rb.read_pos + (rb.write_pos + 2 ^ k - rb.read_pos)) % 2 ^ k :=
    Nat.ModEq.add_left _ (Nat.mod_modEq _ _)
  rw [h2, show rb.read_pos + (rb.write_pos + 2 ^ k - rb.read_pos)
      = rb.write_pos + 2 ^ k from by omega,
    Nat.add_mod_right, Nat.mod_eq_of_lt hw]

theorem try_push_full {T : Type} (k : Nat) (rb : SPSCRingBuffer T) (x : T)
    (h : RingInv k rb) (hfull : size k rb = 2 ^ k - 1) :
    try_push k rb x = (false, rb) := by
  obtain ⟨hw, hr⟩ := h
  have hC : 0 < 2 ^ k := Nat.pos_pow_of_pos k (by omega)
  have hs := size_eq_mod k rb
  rw [hs] at hfull
  have hcond : (rb.write_pos + 1) % 2 ^ k = rb.read_pos := by
    rw [mod_two_cases _ _ hC (by omega)]
    rw [mod_two_cases _ _ hC (by omega)] at hfull
    split_ifs at hfull ⊢ <;> omega
  unfold try_push
  dsimp only
  rw [mask_eq_mod, if_pos hcond]

theorem try_push_ok {T : Type} (k : Nat) (rb : SPSCRingBuffer T) (x : T)
    (h : RingInv k rb) (hlt : size k rb < 2 ^ k - 1) :
    (try_push k rb x).1 = true ∧ RingInv k (try_push k rb x).2 ∧
    toList k (try_push k rb x).2 = toList k rb ++ [x] := by
  obtain ⟨hw, hr⟩ := h
  have hC : 0 < 2 ^ k := Nat.pos_pow_of_pos k (by omega)
  have hs := size_eq_mod k rb
  have hlt2 := hlt
  rw [hs] at hlt2
  have hcond : ¬ (rb.write_pos + 1) % 2 ^ k = rb.read_pos := by
    rw [mod_two_cases _ _ hC (by omega)]
    rw [mod_two_cases _ _ hC (by omega)] at hlt2
    split_ifs at hlt2 ⊢ <;> omega
  unfold try_push
  dsimp only
  rw [mask_eq_mod, if_neg hcond]
  refine ⟨rfl, ⟨Nat.mod_lt _ hC, hr⟩, ?_⟩
  have hdlt : size k rb < 2 ^ k := size_lt k rb ⟨hw, hr⟩
  have hradd : (rb.read_pos + size k rb) % 2 ^ k = rb.write_pos :=
    read_add_size k rb ⟨hw, hr⟩
  have hsize' : size k
      (⟨fun i => if i = rb.write_pos then x else rb.buffer i,
        (rb.write_pos + 1) % 2 ^ k, rb.read_pos⟩ : SPSCRingBuffer T)
      = size k rb + 1 := by
    rw [size_eq_mod]
    dsimp only
    rw [hs]
    rw [mod_two_cases _ (rb.write_pos + 1) hC (by omega)]
    rw [mod_two_cases _ (rb.write_pos + 2 ^ k - rb.read_pos) hC (by omega)]
    rw [mod_two_cases _ (rb.write_pos + 2 ^ k - rb.read_pos) hC (by omega)]
      at hlt2
    split_ifs at hlt2 ⊢ <;>
      (rw [mod_two_cases _ _ hC (by omega)] <;> split_ifs <;> omega)
  unfold toList
  dsimp only
  rw [hsize', List.range_succ, List.map_append]
  congr 1
  · apply List.map_congr_left
    intro i hi
    have hi2 : i < size k rb := List.mem_range.mp hi
    have hne : ¬ (rb.read_pos + i) % 2 ^ k = rb.write_pos := by
      intro he
      rw [← hradd] at he
      have hmeq : i ≡ size k rb [MOD 2 ^ k] :=
        Nat.ModEq.add_left_cancel' rb.read_pos he
      have : i % 2 ^ k = size k rb % 2 ^ k := hmeq
      rw [Nat.mod_eq_of_lt (by omega), Nat.mod_eq_of_lt hdlt] at this
      omega
    simp [hne]
  · simp [hradd]

theorem toList_length {T : Type} (k : Nat) (rb : SPSCRingBuffer T) :
    (toList k rb).length = size k rb := by
  simp [toList]

theorem try_pop_empty {T : Type} (k : Nat) (rb : SPSCRingBuffer T)
    (h : RingInv k rb) (he : toList k rb = []) :
    try_pop k rb = (none, rb) := by
  obtain ⟨hw, hr⟩ := h
  have hC : 0 < 2 ^ k := Nat.pos_pow_of_pos k (by omega)
  have hsz : size k rb = 0 := by
    rw [← toList_length, he]
    rfl
  rw [size_eq_mod, mod_two_cases _ _ hC (by omega)] at hsz
  have hrw : rb.read_pos = rb.write_pos := by
    split_ifs at hsz <;> omega
  unfold try_pop
  rw [if_pos hrw]

theorem try_pop_cons {T : Type} (k : Nat) (rb : SPSCRingBuffer T)
    (y : T) (ys : List T) (h : RingInv k rb) (hc : toList k rb = y :: ys) :
    (try_pop k rb).1 = some y ∧ RingInv k (try_pop k rb).2 ∧
    toList k (try_pop k rb).2 = ys := by
  obtain ⟨hw, hr⟩ := h
  have hC : 0 < 2 ^ k := Nat.pos_pow_of_pos k (by omega)
  have hsz : size k rb = ys.length + 1 := by
    rw [← toList_length, hc]
    rfl
  have hs := size_eq_mod k rb
  have hrw : ¬ rb.read_pos = rb.write_pos := by
    intro hrweq
    rw [hs, hrweq, mod_two_cases _ _ hC (by omega)] at hsz
    split_ifs at hsz <;> omega
  have hhead : rb.buffer rb.read_pos = y ∧
      ys = (List.range ys.length).map
        (fun i => rb.buffer ((rb.read_pos + (i + 1)) % 2 ^ k)) := by
    have hc2 := hc
    unfold toList at hc2
    rw [hsz, List.range_succ_eq_map, List.map_cons] at hc2
    rw [List.cons.injEq] at hc2
    constructor
    · rw [← hc2.1, Nat.add_zero, Nat.mod_eq_of_lt hr]
    · rw [List.map_map] at hc2
      refine hc2.2.symm.trans ?_
      apply List.map_congr_left
      intro i hi
      simp [Function.comp, Nat.succ_eq_add_one]
  unfold try_pop
  rw [mask_eq_mod, if_neg hrw]
  refine ⟨by rw [hhead.1], ⟨hw, Nat.mod_lt _ hC⟩, ?_⟩
  have hsize2 : size k
      ({ rb with read_pos := (rb.read_pos + 1) % 2 ^ k } : SPSCRingBuffer T)
      = ys.length := by
    rw [size_eq_mod]
    dsimp only
    rw [hs, mod_two_cases _ _ hC (by omega)] at hsz
    rw [mod_two_cases _ (rb.read_pos + 1) hC (by omega)]
    split_ifs at hsz ⊢ <;>
      (rw [mod_two_cases _ _ hC (by omega)] <;> split_ifs <;> omega)
  unfold toList
  dsimp only
  rw [hsize2, hhead.2]
  simp only [List.length_map, List.length_range]
  apply List.map_congr_left
  intro i hi
  have harith : ((rb.read_pos + 1) % 2 ^ k + i) % 2 ^ k
      = (rb.read_pos + (i + 1)) % 2 ^ k := by
    have hmeq : (rb.read_pos + 1) % 2 ^ k + i ≡ rb.read_pos + 1 + i
        [MOD 2 ^ k] := Nat.ModEq.add_right i (Nat.mod_modEq _ _)
    have heq2 : ((rb.read_pos + 1) % 2 ^ k + i) % 2 ^ k
        = (rb.read_pos + 1 + i) % 2 ^ k := hmeq
    rw [heq2, Nat.add_assoc, Nat.add_comm 1 i]
  rw [harith]

theorem pushN_state {T : Type} [Inhabited T] (k : Nat) (items : Nat → T) :
    ∀ n, n ≤ 2 ^ k - 1 →
      (pushN k items n).1.write_pos = n ∧
      (pushN k items n).1.read_pos = 0 ∧
      (pushN k items n).2 = true := by
  intro n
  induction n with
  | zero => intro _; exact ⟨rfl, rfl, rfl⟩
  | succ m ih =>
    intro hle
    have hC : 0 < 2 ^ k := Nat.pos_pow_of_pos k (by omega)
    have hm := ih (by omega)
    unfold pushN
    rcases hpm : pushN k items m with ⟨rb, ok⟩
    rw [hpm] at hm
    dsimp only at hm ⊢
    unfold try_push
    rw [mask_eq_mod, hm.1, hm.2.1, Nat.mod_eq_of_lt (by omega)]
    rw [if_neg (by omega)]
    exact ⟨rfl, rfl, by rw [hm.2.2]; rfl⟩

theorem pushN_full {T : Type} [Inhabited T] (k : Nat) (items : Nat → T) :
    (try_push k (pushN k items (2 ^ k - 1)).1 (items (2 ^ k - 1))).1
      = false := by
  have hC : 0 < 2 ^ k := Nat.pos_pow_of_pos k (by omega)
  have h := pushN_state k items (2 ^ k - 1) le_rfl
  unfold try_push
  rw [mask_eq_mod, h.1, h.2.1,
    show 2 ^ k - 1 + 1 = 2 ^ k from by omega, Nat.mod_self]
  rw [if_pos rfl]

end SPSCRingBuffer

/-- C8: for the SPSC ring of capacity 2^k used sequentially: from a fresh
ring exactly 2^k - 1 consecutive try_push calls succeed and the next
returns false; try_pop on the empty ring returns false and leaves the
ring unchanged; and the ring refines a FIFO queue: under the index
invariant, try_push appends the pushed item to the abstract pending list
when it is not full (failing exactly at length 2^k - 1), and try_pop
returns the head of a non-empty pending list and leaves its tail.  The
refinement makes the consumer see the items of any interleaving of pushes
and pops in exactly push order. -/
theorem claim_C8_ring_fifo (T : Type) [Inhabited T] (k : Nat)
    (items : Nat → T) :
    (SPSCRingBuffer.pushN k items (2 ^ k - 1)).2 = true ∧
    (SPSCRingBuffer.try_push k (SPSCRingBuffer.pushN k items (2 ^ k - 1)).1
       (items (2 ^ k - 1))).1 = false ∧
    SPSCRingBuffer.try_pop k (SPSCRingBuffer.new T)
      = (none, SPSCRingBuffer.new T) ∧
    (∀ (rb : SPSCRingBuffer T) (x : T), SPSCRingBuffer.RingInv k rb →
      ((SPSCRingBuffer.toList k rb).length < 2 ^ k - 1 →
        (SPSCRingBuffer.try_push k rb x).1 = true ∧
        SPSCRingBuffer.RingInv k (SPSCRingBuffer.try_push k rb x).2 ∧
        SPSCRingBuffer.toList k (SPSCRingBuffer.try_push k rb x).2
          = SPSCRingBuffer.toList k rb ++ [x]) ∧
      ((SPSCRingBuffer.toList k rb).length = 2 ^ k - 1 →
        SPSCRingBuffer.try_push k rb x = (false, rb)) ∧
      (SPSCRingBuffer.toList k rb = [] →
        SPSCRingBuffer.try_pop k rb = (none, rb)) ∧
      (∀ (y : T) (ys : List T), SPSCRingBuffer.toList k rb = y :: ys →
        (SPSCRingBuffer.try_pop k rb).1 = some y ∧
        SPSCRingBuffer.RingInv k (SPSCRingBuffer.try_pop k rb).2 ∧
        SPSCRingBuffer.toList k (SPSCRingBuffer.try_pop k rb).2 = ys)) := by
  refine ⟨(SPSCRingBuffer.pushN_state k items _ le_rfl).2.2,
    SPSCRingBuffer.pushN_full k items, ?_, ?_⟩
  · unfold SPSCRingBuffer.try_pop
    rw [if_pos (show (SPSCRingBuffer.new T).read_pos
      = (SPSCRingBuffer.new T).write_pos from rfl)]
  · intro rb x h
    refine ⟨?_, ?_, SPSCRingBuffer.try_pop_empty k rb h,
      fun y ys hc => SPSCRingBuffer.try_pop_cons k rb y ys h hc⟩
    · intro hlt
      rw [SPSCRingBuffer.toList_length] at hlt
      exact SPSCRingBuffer.try_push_ok k rb x h hlt
    · intro heq
      rw [SPSCRingBuffer.toList_length] at heq
      exact SPSCRingBuffer.try_push_full k rb x h heq

/-- Witness for C8 at a concrete input: with capacity 4 (k = 2) and the
one-element ring holding 5, the invariant holds, the pending list is [5],
and the theorem's pop clause returns 5. -/
theorem claim_C8_ring_fifo_witness :
    (SPSCRingBuffer.RingInv 2
        (SPSCRingBuffer.try_push 2 (SPSCRingBuffer.new Nat) 5).2 ∧
      SPSCRingBuffer.toList 2
        (SPSCRingBuffer.try_push 2 (SPSCRingBuffer.new Nat) 5).2 = [5]) ∧
    (SPSCRingBuffer.try_pop 2
        (SPSCRingBuffer.try_push 2 (SPSCRingBuffer.new Nat) 5).2).1
      = some 5 :=
  ⟨⟨⟨by decide, by decide⟩, by decide⟩,
   (((claim_C8_ring_fifo Nat 2 (fun i => i)).2.2.2
       (SPSCRingBuffer.try_push 2 (SPSCRingBuffer.new Nat) 5).2 0
       ⟨by decide, by decide⟩).2.2.2 5 [] (by decide)).1⟩

end Atlas
